import Mathlib

/-!
Verification of declaration-level elaboration in a SystemVerilog front end.

The definitions below are a shallow embedding of the symbol-elaboration
routines in MemberSymbols.cpp and VariableSymbols.cpp: variable and net
creation from data declarations, continuous assignments and the implicit
nets they may create, user-defined primitives (UDPs), elaboration system
tasks, clocking blocks, lazily memoized symbol fields, and anonymous
programs.  Source locations and ranges are modelled by natural-number
identifiers; diagnostic notes attached to a primary diagnostic are not
modelled (no claim concerns them).
-/

/-- A four-state logic bit, as in the front end's logic_t. -/
inductive L4 where
  | zero
  | one
  | x
  | z
deriving DecidableEq, Repr

def L4.isKnown : L4 → Bool
  | .zero => true
  | .one => true
  | _ => false

/-- A four-state integer value (SVInt): a list of bits, least significant first.
The bit width is the length of the list. -/
structure SVIntM where
  bits : List L4
deriving DecidableEq, Repr

def SVIntM.getBitWidth (v : SVIntM) : Nat := v.bits.length

def SVIntM.hasUnknown (v : SVIntM) : Bool := v.bits.any (fun b => !b.isKnown)

/-- The numeric value of the known bits (LSB first). -/
def SVIntM.toNat (v : SVIntM) : Nat :=
  v.bits.foldr (fun b acc => 2 * acc + (if b = L4.one then 1 else 0)) 0

/-- Comparison of an SVInt with a plain natural number: false whenever any
bit is unknown, as in the source's operator== against an int. -/
def SVIntM.eqNat (v : SVIntM) (n : Nat) : Bool := !v.hasUnknown && v.toNat == n

/-- Truthiness of an integer constant value: the reduction-or of the bits is
exactly 1, i.e. some bit is definitely one. -/
def SVIntM.isTrue (v : SVIntM) : Bool := v.bits.any (fun b => b = L4.one)

/-- The diagnostic codes issued by the modelled routines. -/
inductive DiagCode where
  | AutomaticNotAllowed
  | StaticInitializerMustBeExplicit
  | ConstVarNoInitializer
  | StaticAssert
  | FatalTask
  | ErrorTask
  | WarningTask
  | InfoTask
  | MultipleDefaultInputSkew
  | MultipleDefaultOutputSkew
  | PrimitiveAnsiMix
  | PrimitivePortDup
  | PrimitiveRegDup
  | PrimitivePortUnknown
  | PrimitiveRegInput
  | PrimitivePortMissing
  | PrimitiveTwoPorts
  | PrimitiveOutputFirst
  | PrimitiveDupOutput
  | PrimitiveInitialInComb
  | PrimitiveDupInitial
  | PrimitiveWrongInitial
  | PrimitiveInitVal
  | UnsupportedUdpPortList
deriving DecidableEq, Repr

/-- A diagnostic: code, primary location, and an optional string argument
(the name or message streamed into the diagnostic).  Notes are not modelled. -/
structure Diag where
  code : DiagCode
  loc : Nat
  arg : String := ""
deriving DecidableEq, Repr

/-- A token as needed here: its value text and its location. -/
structure TokenM where
  text : String
  loc : Nat
deriving DecidableEq, Repr

/-! ## Variable declarations (VariableSymbol::fromSyntax) -/

inductive VariableLifetime where
  | Static
  | Automatic
deriving DecidableEq, Repr

/-- The declaration modifiers accepted by VariableSymbol::fromSyntax. -/
inductive DeclModifier where
  | VarKeyword
  | ConstKeyword
  | StaticKeyword
  | AutomaticKeyword
deriving DecidableEq, Repr

/-- The kind of the scope's symbol, as consulted by getDefaultLifetime and
by the interface-variable check. -/
inductive ScopeSymKind where
  | StatementBlock (defaultLifetime : VariableLifetime)
  | Subroutine (defaultLifetime : VariableLifetime)
  | MethodPrototype
  | InstanceBodyInterface
  | Package
  | OtherScope
deriving DecidableEq, Repr

/-- The facts about the enclosing scope that VariableSymbol::fromSyntax
consults: the symbol kind and whether the scope is a procedural context. -/
structure VarScope where
  kind : ScopeSymKind
  isProceduralContext : Bool
deriving DecidableEq, Repr

def getDefaultLifetime (scope : VarScope) : VariableLifetime :=
  match scope.kind with
  | .StatementBlock dl => dl
  | .Subroutine dl => dl
  | .MethodPrototype => VariableLifetime.Automatic
  | _ => VariableLifetime.Static

/-- A declarator: name, location, and whether an initializer is present. -/
structure DeclaratorSyntax where
  name : String
  loc : Nat
  hasInitializer : Bool
deriving DecidableEq, Repr

/-- A data declaration: modifier tokens (with their locations) and declarators. -/
structure DataDeclarationSyntax where
  modifiers : List (DeclModifier × Nat)
  declarators : List DeclaratorSyntax
deriving DecidableEq, Repr

structure VariableSym where
  name : String
  loc : Nat
  lifetime : VariableLifetime
  isConst : Bool
  isInterfaceVar : Bool
deriving DecidableEq, Repr

/-- State of the modifier-processing loop at the head of
VariableSymbol::fromSyntax. -/
structure ModState where
  isConst : Bool
  lifetime : Option VariableLifetime
  diags : List Diag
deriving DecidableEq, Repr

/-- One step of the modifier loop: var is ignored, const sets the const
flag, static sets a static lifetime, automatic sets an automatic lifetime
but is demoted to static (with AutomaticNotAllowed) outside procedural
contexts. -/
def applyModifier (inProceduralContext : Bool) (st : ModState)
    (ml : DeclModifier × Nat) : ModState :=
  match ml.1 with
  | .VarKeyword => st
  | .ConstKeyword => { st with isConst := true }
  | .StaticKeyword => { st with lifetime := some VariableLifetime.Static }
  | .AutomaticKeyword =>
    if inProceduralContext then
      { st with lifetime := some VariableLifetime.Automatic }
    else
      { st with lifetime := some VariableLifetime.Static,
                diags := st.diags ++ [⟨DiagCode.AutomaticNotAllowed, ml.2, ""⟩] }

/-- The modifier loop at the head of VariableSymbol::fromSyntax. -/
def applyModifiers (inProceduralContext : Bool)
    (mods : List (DeclModifier × Nat)) (st : ModState) : ModState :=
  mods.foldl (applyModifier inProceduralContext) st

/-- Elaboration of a single declarator: the created variable plus the
diagnostics issued for it. -/
def VariableSymbol.fromDeclarator (scope : VarScope) (isConst : Bool)
    (hasExplicitLifetime : Bool) (lifetime : VariableLifetime)
    (d : DeclaratorSyntax) : VariableSym × List Diag :=
  let v : VariableSym :=
    { name := d.name, loc := d.loc, lifetime := lifetime, isConst := isConst,
      isInterfaceVar := scope.kind = ScopeSymKind.InstanceBodyInterface }
  let staticInitDiags : List Diag :=
    if lifetime = VariableLifetime.Static ∧ ¬hasExplicitLifetime ∧
        d.hasInitializer ∧ scope.isProceduralContext then
      [⟨DiagCode.StaticInitializerMustBeExplicit, d.loc, ""⟩]
    else []
  let constDiags : List Diag :=
    if isConst ∧ ¬d.hasInitializer then
      [⟨DiagCode.ConstVarNoInitializer, d.loc, ""⟩]
    else []
  (v, staticInitDiags ++ constDiags)

/-- VariableSymbol::fromSyntax for a data declaration: process modifiers,
fall back to the scope's default lifetime, then create one variable per
declarator. -/
def VariableSymbol.fromSyntax (scope : VarScope) (stx : DataDeclarationSyntax) :
    List VariableSym × List Diag :=
  let st := applyModifiers scope.isProceduralContext stx.modifiers ⟨false, none, []⟩
  let hasExplicitLifetime := st.lifetime.isSome
  let lifetime := st.lifetime.getD (getDefaultLifetime scope)
  let perDecl := stx.declarators.map
    (VariableSymbol.fromDeclarator scope st.isConst hasExplicitLifetime lifetime)
  (perDecl.map Prod.fst, st.diags ++ perDecl.flatMap Prod.snd)

/-! ## Elaboration system tasks ($static_assert and friends) -/

inductive SysTaskKind where
  | Fatal
  | Error
  | Warning
  | Info
  | StaticAssertTask
deriving DecidableEq, Repr

/-- The bound condition expression of a $static_assert, as consulted by
reportStaticAssert: its constant value (if it constant-evaluated) and
whether it is a binary comparison (which only affects a note, not modelled). -/
structure AssertCondExpr where
  constant : Option SVIntM
  isComparisonBinop : Bool
deriving DecidableEq, Repr

/-- ElabSystemTaskSymbol::reportStaticAssert: silent when the condition has a
constant value that is true; otherwise one StaticAssert diagnostic carrying
the message. -/
def reportStaticAssert (loc : Nat) (message : String)
    (condition : Option AssertCondExpr) : List Diag :=
  match condition with
  | some c =>
    match c.constant with
    | some v =>
      if v.isTrue then [] else [⟨DiagCode.StaticAssert, loc, message⟩]
    | none => [⟨DiagCode.StaticAssert, loc, message⟩]
  | none => [⟨DiagCode.StaticAssert, loc, message⟩]

/-- ElabSystemTaskSymbol::issueDiagnostic: dispatch on the task kind; the
message has already been formatted by getMessage. -/
def issueDiagnostic (taskKind : SysTaskKind) (loc : Nat) (msg : String)
    (assertCondition : Option AssertCondExpr) : List Diag :=
  match taskKind with
  | .Fatal => [⟨DiagCode.FatalTask, loc, msg⟩]
  | .Error => [⟨DiagCode.ErrorTask, loc, msg⟩]
  | .Warning => [⟨DiagCode.WarningTask, loc, msg⟩]
  | .Info => [⟨DiagCode.InfoTask, loc, msg⟩]
  | .StaticAssertTask => reportStaticAssert loc msg assertCondition

/-! ## Clocking blocks (ClockingBlockSymbol::fromSyntax) -/

/-- A clocking-skew syntax node, identified by the location of its first token. -/
structure ClockingSkewStx where
  firstTokenLoc : Nat
deriving DecidableEq, Repr

/-- An item of a clocking declaration: either a default-skew item (whose
direction syntax may carry an input skew, an output skew, or both), or any
other member item. -/
inductive ClockingItemStx where
  | defaultSkew (inputSkew : Option ClockingSkewStx) (outputSkew : Option ClockingSkewStx)
  | member (memberId : Nat)
deriving DecidableEq, Repr

/-- The state threaded through the item loop of ClockingBlockSymbol::fromSyntax. -/
structure ClockingAcc where
  inputSkew : Option ClockingSkewStx
  outputSkew : Option ClockingSkewStx
  diags : List Diag
  members : List Nat
deriving DecidableEq, Repr

/-- The input-skew half of a default-skew item: record the first input skew,
diagnose any later one. -/
def applyInputSkew (acc : ClockingAcc) (inSk : Option ClockingSkewStx) : ClockingAcc :=
  match inSk with
  | some s =>
    match acc.inputSkew with
    | some _ =>
      { acc with diags := acc.diags ++
          [⟨DiagCode.MultipleDefaultInputSkew, s.firstTokenLoc, ""⟩] }
    | none => { acc with inputSkew := some s }
  | none => acc

/-- The output-skew half of a default-skew item. -/
def applyOutputSkew (acc : ClockingAcc) (outSk : Option ClockingSkewStx) : ClockingAcc :=
  match outSk with
  | some s =>
    match acc.outputSkew with
    | some _ =>
      { acc with diags := acc.diags ++
          [⟨DiagCode.MultipleDefaultOutputSkew, s.firstTokenLoc, ""⟩] }
    | none => { acc with outputSkew := some s }
  | none => acc

/-- One iteration of the item loop: a default-skew item records the first
input (resp. output) skew and diagnoses later ones; any other item is added
to the scope as a member. -/
def clockingStep (acc : ClockingAcc) (item : ClockingItemStx) : ClockingAcc :=
  match item with
  | .defaultSkew inSk outSk => applyOutputSkew (applyInputSkew acc inSk) outSk
  | .member m => { acc with members := acc.members ++ [m] }

def clockingItemsLoop : List ClockingItemStx → ClockingAcc → ClockingAcc
  | [], acc => acc
  | item :: rest, acc => clockingItemsLoop rest (clockingStep acc item)

/-- The item-processing part of ClockingBlockSymbol::fromSyntax: returns the
recorded default input/output skews, the diagnostics, and the member items
added to the block's scope. -/
def ClockingBlockSymbol.fromSyntax (items : List ClockingItemStx) : ClockingAcc :=
  clockingItemsLoop items ⟨none, none, [], []⟩

/-- The input skews of the default-skew items, in source order. -/
def inputSkewsOf (items : List ClockingItemStx) : List ClockingSkewStx :=
  items.filterMap (fun item =>
    match item with
    | .defaultSkew (some s) _ => some s
    | _ => none)

/-- The output skews of the default-skew items, in source order. -/
def outputSkewsOf (items : List ClockingItemStx) : List ClockingSkewStx :=
  items.filterMap (fun item =>
    match item with
    | .defaultSkew _ (some s) => some s
    | _ => none)

/-- The non-default-skew items, in source order. -/
def memberItemsOf (items : List ClockingItemStx) : List Nat :=
  items.filterMap (fun item =>
    match item with
    | .member m => some m
    | _ => none)

/-! ## Nets and continuous assignments -/

/-- A net type; the `none` default nettype is represented by the error
net type (isError). -/
structure NetTypeM where
  name : String
  isError : Bool
deriving DecidableEq, Repr

/-- A net symbol.  setTypeM records a type explicitly installed with
setType (as createImplicit does with the logic type); for declared nets the
type is resolved lazily from the declaration syntax instead. -/
structure NetSym where
  name : String
  loc : Nat
  netType : NetTypeM
  setTypeIsLogic : Bool
  isImplicit : Bool
deriving DecidableEq, Repr

/-- NetSymbol::createImplicit: an implicit net for an identifier, of the
given net type, whose type is set to the logic type. -/
def NetSymbol.createImplicit (t : TokenM) (netType : NetTypeM) : NetSym :=
  { name := t.text, loc := t.loc, netType := netType,
    setTypeIsLogic := true, isImplicit := true }

/-- A net declaration (e.g. `wire foo;`): declarators of the declaration.
The vectored/scalared expansion hint and delay/strength syntax are not
needed by any claim and are omitted. -/
structure NetDeclarationStx where
  declarators : List DeclaratorSyntax
deriving DecidableEq, Repr

/-- NetSymbol::fromSyntax for a built-in net declaration: one net per
declarator, no diagnostics. -/
def NetSymbol.fromSyntax (netType : NetTypeM) (stx : NetDeclarationStx) : List NetSym :=
  stx.declarators.map (fun d =>
    { name := d.name, loc := d.loc, netType := netType,
      setTypeIsLogic := false, isImplicit := false })

/-- One expression of a continuous-assign statement: an assignment expression
(with the bare identifier name syntaxes appearing on its left-hand side, in
order), or some other ill-formed expression kind. -/
inductive AssignExprStx where
  | assignment (lhsIdents : List TokenM)
  | nonAssignment (loc : Nat)
deriving DecidableEq, Repr

def AssignExprStx.firstTokenLoc : AssignExprStx → Nat
  | .assignment lhs => (lhs.head?.map TokenM.loc).getD 0
  | .nonAssignment loc => loc

structure ContinuousAssignStx where
  assignments : List AssignExprStx
deriving DecidableEq, Repr

/-- The facts about the enclosing scope consulted by
ContinuousAssignSymbol::fromSyntax: which names an unqualified lookup
resolves, and the scope's default net type. -/
structure CAScope where
  resolvedNames : List String
  defaultNetType : NetTypeM
deriving DecidableEq, Repr

/-- Modelled from the spec: Expression::findPotentiallyImplicitNets (only its
caller is in the sources here).  For each bare identifier on the LHS that is
not already resolved, an implicit net is to be created. -/
def findPotentiallyImplicitNets (scope : CAScope) (lhs : List TokenM) : List TokenM :=
  lhs.filter (fun t => ¬ scope.resolvedNames.contains t.text)

/-- A continuous-assign symbol (unnamed; located at its expression's first token). -/
structure ContinuousAssignSym where
  loc : Nat
deriving DecidableEq, Repr

/-- The implicit nets created for one assignment expression: none when the
default nettype is the error (none) type or the expression is not an
assignment expression. -/
def implicitNetsForExpr (scope : CAScope) (e : AssignExprStx) : List NetSym :=
  if scope.defaultNetType.isError then []
  else
    match e with
    | .assignment lhs =>
      (findPotentiallyImplicitNets scope lhs).map
        (fun t => NetSymbol.createImplicit t scope.defaultNetType)
    | .nonAssignment _ => []

/-- ContinuousAssignSymbol::fromSyntax: per assignment expression, create the
implicit nets for its LHS and one continuous-assign symbol.  The routine
issues no diagnostics itself. -/
def ContinuousAssignSymbol.fromSyntax (scope : CAScope) (stx : ContinuousAssignStx) :
    List ContinuousAssignSym × List NetSym × List Diag :=
  (stx.assignments.map (fun e => ContinuousAssignSym.mk e.firstTokenLoc),
   stx.assignments.flatMap (implicitNetsForExpr scope),
   [])

/-- Seed scenario 1: `module m; wire foo; assign foo = 1, foo = 'z; endmodule`. -/
def wireNetType : NetTypeM := ⟨"wire", false⟩

def seed1NetDecl : NetDeclarationStx := ⟨[⟨"foo", 10, false⟩]⟩

/-- The scope of module m once `wire foo;` has been added: `foo` resolves. -/
def seed1Scope : CAScope := ⟨["foo"], wireNetType⟩

def seed1AssignStx : ContinuousAssignStx :=
  ⟨[.assignment [⟨"foo", 20⟩], .assignment [⟨"foo", 30⟩]]⟩

/-- Elaboration of the members of seed module 1: the nets from the wire
declaration, then the continuous assigns and their implicit nets. -/
def seed1Result :
    List NetSym × List ContinuousAssignSym × List NetSym × List Diag :=
  let nets := NetSymbol.fromSyntax wireNetType seed1NetDecl
  let (cas, implicit, diags) := ContinuousAssignSymbol.fromSyntax seed1Scope seed1AssignStx
  (nets, cas, implicit, diags)

/-! ## Lazily memoized fields (getAssignment, getDelay) -/

/-- The state of a continuous-assign symbol relevant to getAssignment: the
expression syntax it was created from and the memoization cell. -/
structure CAssignState (α : Type) where
  stxExpr : Nat
  assign : Option α

/-- ContinuousAssignSymbol::getAssignment: return the cached expression if
present; otherwise bind the syntax (a deterministic function of the symbol's
syntax and parent scope, abstracted as `bindE`) and cache the result. -/
def getAssignment {α : Type} (bindE : Nat → α) (s : CAssignState α) :
    α × CAssignState α :=
  match s.assign with
  | some e => (e, s)
  | none =>
    let e := bindE s.stxExpr
    (e, { s with assign := some e })

/-- The parent syntax of a net's declarator, as examined by NetSymbol::getDelay. -/
inductive NetParentStx where
  | netDeclaration (delay : Option Nat)
  | dataDeclarationClassName (params : Nat)
  | dataDeclarationOther
  | otherParent
deriving DecidableEq, Repr

/-- The state of a net symbol relevant to getDelay: whether a parent scope is
set, the parent syntax (none when the symbol has no syntax or its syntax has
no parent), and the memoization cell. -/
structure NetDelayState (β : Type) where
  hasParentScope : Bool
  parent : Option NetParentStx
  delay : Option (Option β)

/-- NetSymbol::getDelay: return the cached value if the cell is engaged;
otherwise compute from the parent syntax (binding abstracted as `bindDelay`
and `fromParams`) and cache. -/
def NetSymbol.getDelay {β : Type} (bindDelay : Nat → β) (fromParams : Nat → β)
    (s : NetDelayState β) : Option β × NetDelayState β :=
  match s.delay with
  | some v => (v, s)
  | none =>
    if ¬s.hasParentScope then (none, { s with delay := some none })
    else
      match s.parent with
      | none => (none, { s with delay := some none })
      | some (.netDeclaration (some d)) =>
        let v := some (bindDelay d)
        (v, { s with delay := some v })
      | some (.netDeclaration none) => (none, { s with delay := some none })
      | some (.dataDeclarationClassName ps) =>
        let v := some (fromParams ps)
        (v, { s with delay := some v })
      | some .dataDeclarationOther => (none, { s with delay := some none })
      | some .otherParent => (none, { s with delay := some none })

/-! ## Anonymous programs (AnonymousProgramSymbol::fromSyntax) -/

/-- An entry of a scope's member list: an ordinary member, or a transparent
member symbol wrapping a symbol from elsewhere. -/
inductive ScopeEntry (α : Type) where
  | direct (sym : α)
  | transparent (sym : α)

/-- AnonymousProgramSymbol::fromSyntax: add the members built from each
member syntax to the anonymous program, then hoist every member into the
parent scope wrapped in a transparent member symbol.  `buildMembers` stands
for Scope::addMembers on one member syntax node. -/
def AnonymousProgramSymbol.fromSyntax {α : Type} (buildMembers : Nat → List α)
    (parentMembers : List (ScopeEntry α)) (memberStxs : List Nat) :
    List α × List (ScopeEntry α) :=
  let members := memberStxs.flatMap buildMembers
  (members, parentMembers ++ members.map ScopeEntry.transparent)

/-- Modelled from the spec: what an unqualified lookup in a scope can see;
a transparent member symbol makes its wrapped symbol visible. -/
def visibleSymbols {α : Type} (entries : List (ScopeEntry α)) : List α :=
  entries.map (fun e =>
    match e with
    | .direct s => s
    | .transparent s => s)

/-! ## User-defined primitives (PrimitiveSymbol::fromSyntax) -/

inductive PrimitivePortDirection where
  | In
  | Out
  | OutReg
deriving DecidableEq, Repr

inductive ExprKind where
  | IntegerLiteral
  | OtherKind
deriving DecidableEq, Repr

/-- An expression syntax node, as far as UDP initializer checking needs it:
an integer vector literal (sized or unsized) or any other expression. -/
inductive ExprStx where
  | intLit (unsized : Bool) (bits : List L4) (loc : Nat)
  | otherExpr (constant : Option SVIntM) (bad : Bool) (loc : Nat)
deriving DecidableEq, Repr

/-- A bound expression, with its constant value if constant evaluation
succeeds. -/
structure BoundExpr where
  bad : Bool
  kind : ExprKind
  bitWidth : Nat
  isUnsizedInteger : Bool
  constant : Option SVIntM
  loc : Nat
deriving DecidableEq, Repr

/-- Modelled from the spec: Expression::bind followed by constant evaluation
(the expression layer is outside these sources).  An integer vector literal
binds to an IntegerLiteral expression whose type width is the literal's bit
count and whose constant value is its bits; an unsized literal is flagged
as such. -/
def bindExpr : ExprStx → BoundExpr
  | .intLit unsized bits loc =>
    { bad := false, kind := ExprKind.IntegerLiteral, bitWidth := bits.length,
      isUnsizedInteger := unsized, constant := some ⟨bits⟩, loc := loc }
  | .otherExpr c bad loc =>
    { bad := bad, kind := ExprKind.OtherKind,
      bitWidth := (c.map SVIntM.getBitWidth).getD 0,
      isUnsizedInteger := false, constant := c, loc := loc }

/-- A UDP output port declaration: name, whether a `reg` keyword is present
(with its location), whether the `output` keyword itself is present
(standalone `reg` specifiers lack it), and an optional inline initializer. -/
structure UdpOutputPortDeclStx where
  name : TokenM
  isReg : Bool
  regLoc : Nat
  hasKeyword : Bool
  initializer : Option ExprStx
deriving DecidableEq, Repr

structure UdpInputPortDeclStx where
  names : List TokenM
deriving DecidableEq, Repr

inductive UdpPortDeclStx where
  | output (d : UdpOutputPortDeclStx)
  | input (d : UdpInputPortDeclStx)
deriving DecidableEq, Repr

/-- A representative location for a port declaration's source range. -/
def udpPortDeclLoc : UdpPortDeclStx → Nat
  | .output d => d.name.loc
  | .input d => ((d.names.head?).map TokenM.loc).getD 0

inductive UdpPortListStx where
  | ansi (ports : List UdpPortDeclStx)
  | nonAnsi (ports : List TokenM)
  | wildcard
deriving DecidableEq, Repr

structure UdpInitialStmtStx where
  name : TokenM
  value : ExprStx
  loc : Nat
deriving DecidableEq, Repr

structure UdpBodyStx where
  portDecls : List UdpPortDeclStx
  initialStmt : Option UdpInitialStmtStx
deriving DecidableEq, Repr

structure UdpDeclarationStx where
  name : TokenM
  portList : UdpPortListStx
  body : UdpBodyStx
deriving DecidableEq, Repr

/-- The syntax node recorded on a primitive port symbol by setSyntax. -/
inductive UdpPortSynRef where
  | outputDecl (d : UdpOutputPortDeclStx)
  | identName (t : TokenM)
deriving DecidableEq, Repr

/-- The type slot of a symbol, as far as these routines set it. -/
inductive TypeM where
  | logic
  | voidType
  | errorType
deriving DecidableEq, Repr

structure PrimitivePortSym where
  name : String
  loc : Nat
  direction : PrimitivePortDirection
  typeM : TypeM
  stx : Option UdpPortSynRef
deriving DecidableEq, Repr

/-- The PrimitivePortSymbol constructor: all primitive ports are single-bit
logic types. -/
def PrimitivePortSymbol.mk (name : String) (loc : Nat)
    (direction : PrimitivePortDirection) : PrimitivePortSym :=
  { name := name, loc := loc, direction := direction,
    typeM := TypeM.logic, stx := none }

/-- Building the port symbols of an ANSI UDP port list. -/
def buildAnsiPorts : List UdpPortDeclStx → List PrimitivePortSym
  | [] => []
  | .output d :: rest =>
    let dir := if d.isReg then PrimitivePortDirection.OutReg
               else PrimitivePortDirection.Out
    { PrimitivePortSymbol.mk d.name.text d.name.loc dir with
        stx := some (UdpPortSynRef.outputDecl d) } :: buildAnsiPorts rest
  | .input d :: rest =>
    d.names.map (fun t =>
      { PrimitivePortSymbol.mk t.text t.loc PrimitivePortDirection.In with
          stx := some (UdpPortSynRef.identName t) }) ++ buildAnsiPorts rest

/-- The initial port symbols of a non-ANSI port list: the list only gives
the ordering, so every port starts as an input with no syntax attached. -/
def initNonAnsiPorts (names : List TokenM) : List PrimitivePortSym :=
  names.map (fun t => PrimitivePortSymbol.mk t.text t.loc PrimitivePortDirection.In)

/-- The port-map lookup: the map is keyed by the non-empty port names, first
occurrence winning, so a lookup is the first port with that (non-empty) name. -/
def lookupPortIdx (ports : List PrimitivePortSym) (name : String) : Option Nat :=
  if name = "" then none else ports.findIdx? (fun p => p.name = name)

/-- checkDup: a port that already has a syntax node attached is a duplicate
declaration. -/
def checkDupDiags (p : PrimitivePortSym) (nameTok : TokenM) : List Diag :=
  match p.stx with
  | some _ => [⟨DiagCode.PrimitivePortDup, nameTok.loc, nameTok.text⟩]
  | none => []

/-- The state of the non-ANSI body-declaration loop: the (mutated) port
symbols, the saved standalone `reg` specifier, and the diagnostics so far. -/
structure NonAnsiState where
  ports : List PrimitivePortSym
  regSpecifier : Option UdpOutputPortDeclStx
  diags : List Diag
deriving DecidableEq, Repr

/-- Processing one output port declaration of a non-ANSI UDP body. -/
def processOutputDecl (st : NonAnsiState) (d : UdpOutputPortDeclStx) : NonAnsiState :=
  match lookupPortIdx st.ports d.name.text with
  | some i =>
    match st.ports[i]? with
    | none => st
    | some p =>
      if d.isReg ∧ ¬d.hasKeyword then
        let dupDiags : List Diag :=
          match st.regSpecifier with
          | some _ => [⟨DiagCode.PrimitiveRegDup, d.regLoc, ""⟩]
          | none => []
        { st with regSpecifier := some d, diags := st.diags ++ dupDiags }
      else
        let dir := if d.isReg then PrimitivePortDirection.OutReg
                   else PrimitivePortDirection.Out
        let p' := { p with direction := dir, loc := d.name.loc,
                           stx := some (UdpPortSynRef.outputDecl d) }
        { st with ports := st.ports.set i p',
                  diags := st.diags ++ checkDupDiags p d.name }
  | none =>
    { st with diags := st.diags ++
        [⟨DiagCode.PrimitivePortUnknown, d.name.loc, d.name.text⟩] }

/-- Processing one name of an input port declaration of a non-ANSI UDP body:
the direction is already In, only the syntax and location are updated. -/
def processInputName (st : NonAnsiState) (t : TokenM) : NonAnsiState :=
  match lookupPortIdx st.ports t.text with
  | some i =>
    match st.ports[i]? with
    | none => st
    | some p =>
      let p' := { p with loc := t.loc, stx := some (UdpPortSynRef.identName t) }
      { st with ports := st.ports.set i p',
                diags := st.diags ++ checkDupDiags p t }
  | none =>
    { st with diags := st.diags ++
        [⟨DiagCode.PrimitivePortUnknown, t.loc, t.text⟩] }

def processPortDecl (st : NonAnsiState) : UdpPortDeclStx → NonAnsiState
  | .output d => processOutputDecl st d
  | .input d => d.names.foldl processInputName st

/-- End-of-loop handling of a saved standalone `reg` specifier. -/
def processRegSpecifier (st : NonAnsiState) : NonAnsiState :=
  match st.regSpecifier with
  | none => st
  | some d =>
    match lookupPortIdx st.ports d.name.text with
    | none => st
    | some i =>
      match st.ports[i]? with
      | none => st
      | some p =>
        match p.stx with
        | some _ =>
          if p.direction = PrimitivePortDirection.OutReg then
            { st with diags := st.diags ++ checkDupDiags p d.name }
          else if p.direction = PrimitivePortDirection.In then
            { st with diags := st.diags ++
                [⟨DiagCode.PrimitiveRegInput, d.name.loc, p.name⟩] }
          else
            let p' := { p with direction := PrimitivePortDirection.OutReg }
            { st with ports := st.ports.set i p' }
        | none => st

/-- Ports that were named in a non-ANSI port list but never declared in the
body are diagnosed. -/
def missingPortDiags (ports : List PrimitivePortSym) : List Diag :=
  ports.filterMap (fun p =>
    match p.stx with
    | none => some ⟨DiagCode.PrimitivePortMissing, p.loc, p.name⟩
    | some _ => none)

/-- Building the port symbols of a UDP declaration, with the diagnostics of
the port-building phase.  For a wildcard port list the source has only a
TODO marker: no ports are created and no diagnostic is issued. -/
def buildUdpPorts (decl : UdpDeclarationStx) : List PrimitivePortSym × List Diag :=
  match decl.portList with
  | .ansi portDecls =>
    let ps := buildAnsiPorts portDecls
    let mixDiags : List Diag :=
      match decl.body.portDecls.head? with
      | some d0 => [⟨DiagCode.PrimitiveAnsiMix, udpPortDeclLoc d0, ""⟩]
      | none => []
    (ps, mixDiags)
  | .nonAnsi names =>
    let st0 : NonAnsiState := ⟨initNonAnsiPorts names, none, []⟩
    let st1 := decl.body.portDecls.foldl processPortDecl st0
    let st2 := processRegSpecifier st1
    (st2.ports, st2.diags ++ missingPortDiags st2.ports)
  | .wildcard => ([], [])

/-- The inline initial-value expression of the first port, present only when
that port is an `output reg` declaration carrying an initializer. -/
def primInlineInit (p0 : PrimitivePortSym) : Option ExprStx :=
  if p0.direction = PrimitivePortDirection.OutReg then
    match p0.stx with
    | some (UdpPortSynRef.outputDecl d) => d.initializer
    | _ => none
  else none

/-- The checks on an `initial` statement: rejected on combinational
primitives, rejected as a duplicate when an inline initializer exists,
otherwise its value becomes the initializer (with a wrong-name check). -/
def primInitialStmt (isSeq : Bool) (p0 : PrimitivePortSym)
    (inlineInit : Option ExprStx) (stmt : Option UdpInitialStmtStx) :
    Option ExprStx × List Diag :=
  match stmt with
  | none => (inlineInit, [])
  | some ini =>
    if ¬isSeq then (inlineInit, [⟨DiagCode.PrimitiveInitialInComb, ini.loc, ""⟩])
    else
      match inlineInit with
      | some ie => (some ie, [⟨DiagCode.PrimitiveDupInitial, ini.loc, ""⟩])
      | none =>
        let wrongDiags : List Diag :=
          if ini.name.text ≠ "" ∧ p0.name ≠ "" ∧ ini.name.text ≠ p0.name then
            [⟨DiagCode.PrimitiveWrongInitial, ini.name.loc, ini.name.text⟩]
          else []
        (some ini.value, wrongDiags)

/-- The value test applied to a UDP initial value: 0, 1, or a one-bit x. -/
def goodPrimInitVal (v : SVIntM) : Bool :=
  v.eqNat 0 || v.eqNat 1 ||
    (v.getBitWidth == 1 && v.bits.head? == some L4.x)

/-- Binding and checking a UDP initial-value expression: a bad expression is
ignored; otherwise the value is stored only for an integer literal of a
one-bit type or an unsized integer whose constant value passes
goodPrimInitVal, and a PrimitiveInitVal diagnostic is issued otherwise. -/
def primBindInitVal (e : ExprStx) : Option SVIntM × List Diag :=
  let b := bindExpr e
  if b.bad then (none, [])
  else
    let iv : Option SVIntM :=
      if b.kind = ExprKind.IntegerLiteral ∧ (b.bitWidth = 1 ∨ b.isUnsizedInteger) then
        match b.constant with
        | some v => if goodPrimInitVal v then some v else none
        | none => none
      else none
    match iv with
    | some v => (some v, [])
    | none => (none, [⟨DiagCode.PrimitiveInitVal, b.loc, ""⟩])

structure PrimitiveSym where
  name : String
  loc : Nat
  isSequential : Bool
  initVal : Option SVIntM
  ports : List PrimitivePortSym
deriving DecidableEq, Repr

/-- The tail of PrimitiveSymbol::fromSyntax once the ports are built:
require at least two ports with the (unique) output first, flag
`output reg` primitives sequential, and check the initial value. -/
def primitiveTail (decl : UdpDeclarationStx) :
    List PrimitivePortSym → List Diag → PrimitiveSym × List Diag
  | [], buildDiags =>
    (⟨decl.name.text, decl.name.loc, false, none, []⟩,
     buildDiags ++ [⟨DiagCode.PrimitiveTwoPorts, decl.name.loc, ""⟩])
  | [p0], buildDiags =>
    (⟨decl.name.text, decl.name.loc, false, none, [p0]⟩,
     buildDiags ++ [⟨DiagCode.PrimitiveTwoPorts, decl.name.loc, ""⟩])
  | p0 :: p1 :: rest, buildDiags =>
    if p0.direction = PrimitivePortDirection.In then
      (⟨decl.name.text, decl.name.loc, false, none, p0 :: p1 :: rest⟩,
       buildDiags ++ [⟨DiagCode.PrimitiveOutputFirst, p0.loc, ""⟩])
    else
      let isSeq := p0.direction = PrimitivePortDirection.OutReg
      let inlineInit := primInlineInit p0
      let dupOutDiags : List Diag :=
        match (p1 :: rest).find? (fun p => p.direction ≠ PrimitivePortDirection.In) with
        | some p => [⟨DiagCode.PrimitiveDupOutput, p.loc, ""⟩]
        | none => []
      let (initExpr, iniDiags) :=
        primInitialStmt isSeq p0 inlineInit decl.body.initialStmt
      let (iv, valDiags) :=
        match initExpr with
        | some e => primBindInitVal e
        | none => (none, [])
      (⟨decl.name.text, decl.name.loc, isSeq, iv, p0 :: p1 :: rest⟩,
       buildDiags ++ dupOutDiags ++ iniDiags ++ valDiags)

/-- PrimitiveSymbol::fromSyntax: build the ports, then the checks above. -/
def PrimitiveSymbol.fromSyntax (decl : UdpDeclarationStx) :
    PrimitiveSym × List Diag :=
  match buildUdpPorts decl with
  | (ports, buildDiags) => primitiveTail decl ports buildDiags

/-! ## Auxiliary definitions used by the theorem statements -/

/-- A data declaration carries a given modifier keyword. -/
def hasModifier (stx : DataDeclarationSyntax) (m : DeclModifier) : Prop :=
  ∃ ml ∈ stx.modifiers, ml.1 = m

/-- The bare identifiers on the LHS of one continuous-assign expression. -/
def assignLhsIdents : AssignExprStx → List TokenM
  | .assignment lhs => lhs
  | .nonAssignment _ => []

/-- The diagnostics of a list carrying a given code. -/
def diagsWithCode (c : DiagCode) (ds : List Diag) : List Diag :=
  ds.filter (fun d => decide (d.code = c))

/-- The recorded default skew given the already-recorded one and the
upcoming default-skew syntaxes. -/
def recordedSkew (cur : Option ClockingSkewStx) (upcoming : List ClockingSkewStx) :
    Option ClockingSkewStx :=
  match cur with
  | some s => some s
  | none => upcoming.head?

/-- The default-skew syntaxes that get diagnosed as duplicates. -/
def dupSkewTail (cur : Option ClockingSkewStx) (upcoming : List ClockingSkewStx) :
    List ClockingSkewStx :=
  match cur with
  | some _ => upcoming
  | none => upcoming.drop 1

/-- Helper for primChosenInit, by cases on the built port list. -/
def primChosenInitAux (decl : UdpDeclarationStx) :
    List PrimitivePortSym → Option ExprStx
  | p0 :: _ :: _ =>
    if p0.direction = PrimitivePortDirection.In then none
    else (primInitialStmt (p0.direction = PrimitivePortDirection.OutReg) p0
            (primInlineInit p0) decl.body.initialStmt).1
  | _ => none

/-- The expression checked as the primitive's initial value, when any: the
first port's inline initializer, or the initial statement's value. -/
def primChosenInit (decl : UdpDeclarationStx) : Option ExprStx :=
  primChosenInitAux decl (buildUdpPorts decl).1

/-- The condition under which a UDP initial value is stored: an integer
literal of one-bit type or an unsized integer whose constant value is 0, 1,
or a one-bit x. -/
def goodInitCondB (e : ExprStx) : Bool :=
  let b := bindExpr e
  decide (b.kind = ExprKind.IntegerLiteral) &&
    (decide (b.bitWidth = 1) || b.isUnsizedInteger) &&
    (match b.constant with
     | some v => goodPrimInitVal v
     | none => false)

/-- A UDP whose first (output reg) port carries the inline initializer
`2'd0`: a two-bit integer literal that constant-evaluates to zero. -/
def c2CexInit : ExprStx := ExprStx.intLit false [L4.zero, L4.zero] 4

def c2CexDecl : UdpDeclarationStx :=
  { name := ⟨"p", 1⟩,
    portList := UdpPortListStx.ansi
      [UdpPortDeclStx.output ⟨⟨"q", 2⟩, true, 3, true, some c2CexInit⟩,
       UdpPortDeclStx.input ⟨[⟨"a", 5⟩]⟩],
    body := ⟨[], none⟩ }

/-- A UDP declared with the wildcard port list form: `primitive p (.*); ...`. -/
def c3WildcardDecl : UdpDeclarationStx :=
  { name := ⟨"p", 1⟩, portList := UdpPortListStx.wildcard, body := ⟨[], none⟩ }

/-- A small non-ANSI UDP used to witness the port-type invariant. -/
def c9Decl : UdpDeclarationStx :=
  { name := ⟨"p", 0⟩, portList := UdpPortListStx.nonAnsi [⟨"q", 1⟩, ⟨"a", 2⟩],
    body := ⟨[], none⟩ }

/-- Seed scenario 5: a non-ANSI UDP
`primitive p(q, a); output reg q; input a; initial q = 1'bx; ... endprimitive`. -/
def seed5Decl : UdpDeclarationStx :=
  { name := ⟨"p", 0⟩,
    portList := UdpPortListStx.nonAnsi [⟨"q", 1⟩, ⟨"a", 2⟩],
    body := ⟨[UdpPortDeclStx.output ⟨⟨"q", 3⟩, true, 4, true, none⟩,
              UdpPortDeclStx.input ⟨[⟨"a", 5⟩]⟩],
             some ⟨⟨"q", 6⟩, ExprStx.intLit false [L4.x] 7, 8⟩⟩ }

/-- A combinational ANSI UDP carrying an initial statement. -/
def c2CombDecl : UdpDeclarationStx :=
  { name := ⟨"p", 0⟩,
    portList := UdpPortListStx.ansi
      [UdpPortDeclStx.output ⟨⟨"q", 1⟩, false, 0, true, none⟩,
       UdpPortDeclStx.input ⟨[⟨"a", 2⟩]⟩],
    body := ⟨[], some ⟨⟨"q", 3⟩, ExprStx.intLit false [L4.zero] 4, 5⟩⟩ }

/-! ## Theorems -/

/-- C6: for every elaboration-time $static_assert task, no diagnostic is
issued when its condition expression constant-evaluates to true; when the
condition is not true or has no constant value, a StaticAssert error
diagnostic carrying the formatted message is issued. -/
theorem claim_C6 (loc : Nat) (msg : String) (cond : Option AssertCondExpr) :
    ((∃ c, cond = some c ∧ ∃ v, c.constant = some v ∧ v.isTrue = true) →
      issueDiagnostic SysTaskKind.StaticAssertTask loc msg cond = []) ∧
    ((∀ c, cond = some c → ∀ v, c.constant = some v → v.isTrue = false) →
      issueDiagnostic SysTaskKind.StaticAssertTask loc msg cond =
        [⟨DiagCode.StaticAssert, loc, msg⟩]) := by
  constructor
  · rintro ⟨c, rfl, v, hv, htrue⟩
    simp [issueDiagnostic, reportStaticAssert, hv, htrue]
  · intro h
    match cond with
    | none => simp [issueDiagnostic, reportStaticAssert]
    | some c =>
      match hv : c.constant with
      | none => simp [issueDiagnostic, reportStaticAssert, hv]
      | some v =>
        have := h c rfl v hv
        simp [issueDiagnostic, reportStaticAssert, hv, this]

theorem claim_C6_witness :
    issueDiagnostic SysTaskKind.StaticAssertTask 3 "cond failed"
      (some ⟨some ⟨[L4.one]⟩, false⟩) = [] ∧
    issueDiagnostic SysTaskKind.StaticAssertTask 3 "cond failed"
      (some ⟨some ⟨[L4.zero]⟩, false⟩) =
      [⟨DiagCode.StaticAssert, 3, "cond failed"⟩] :=
  ⟨(claim_C6 3 "cond failed" _).1 ⟨_, rfl, _, rfl, by decide⟩,
   (claim_C6 3 "cond failed" _).2 (by
      rintro c hc v hv
      injection hc with hc
      subst hc
      injection hv with hv
      rw [← hv]
      decide)⟩

/-- C8: lazily computed symbol fields are memoized and idempotent: a second
call to ContinuousAssignSymbol::getAssignment returns exactly the result of
the first (which binds the expression when the cache is empty), and a second
call to NetSymbol::getDelay returns exactly the result of the first. -/
theorem claim_C8 {α β : Type} (bindE : Nat → α) (bindDelay : Nat → β)
    (fromParams : Nat → β) (s : CAssignState α) (t : NetDelayState β) :
    (getAssignment bindE (getAssignment bindE s).2 = getAssignment bindE s) ∧
    (s.assign = none → (getAssignment bindE s).1 = bindE s.stxExpr) ∧
    (NetSymbol.getDelay bindDelay fromParams
        (NetSymbol.getDelay bindDelay fromParams t).2 =
      NetSymbol.getDelay bindDelay fromParams t) := by
  refine ⟨?_, ?_, ?_⟩
  · match hs : s.assign with
    | some e => simp [getAssignment, hs]
    | none => simp [getAssignment, hs]
  · intro hs
    simp [getAssignment, hs]
  · match ht : t.delay with
    | some v => simp [NetSymbol.getDelay, ht]
    | none =>
      match hp : t.hasParentScope with
      | false => simp [NetSymbol.getDelay, ht, hp]
      | true =>
        match hq : t.parent with
        | none => simp [NetSymbol.getDelay, ht, hp, hq]
        | some (.netDeclaration (some d)) => simp [NetSymbol.getDelay, ht, hp, hq]
        | some (.netDeclaration none) => simp [NetSymbol.getDelay, ht, hp, hq]
        | some (.dataDeclarationClassName ps) => simp [NetSymbol.getDelay, ht, hp, hq]
        | some .dataDeclarationOther => simp [NetSymbol.getDelay, ht, hp, hq]
        | some .otherParent => simp [NetSymbol.getDelay, ht, hp, hq]

theorem claim_C8_witness :
    (getAssignment (fun n => n + 1)
        (getAssignment (fun n => n + 1) (⟨5, none⟩ : CAssignState Nat)).2 =
      getAssignment (fun n => n + 1) (⟨5, none⟩ : CAssignState Nat)) ∧
    ((getAssignment (fun n => n + 1) (⟨5, none⟩ : CAssignState Nat)).1 = 5 + 1) ∧
    (NetSymbol.getDelay (fun n => n * 2) (fun n => n * 3)
        (NetSymbol.getDelay (fun n => n * 2) (fun n => n * 3)
          (⟨true, some (NetParentStx.netDeclaration (some 4)), none⟩ : NetDelayState Nat)).2 =
      NetSymbol.getDelay (fun n => n * 2) (fun n => n * 3)
        (⟨true, some (NetParentStx.netDeclaration (some 4)), none⟩ : NetDelayState Nat)) :=
  ⟨(claim_C8 (fun n => n + 1) (fun n => n * 2) (fun n => n * 3)
      ⟨5, none⟩ ⟨true, some (NetParentStx.netDeclaration (some 4)), none⟩).1,
   (claim_C8 (fun n => n + 1) (fun n => n * 2) (fun n => n * 3)
      ⟨5, none⟩ ⟨true, some (NetParentStx.netDeclaration (some 4)), none⟩).2.1 rfl,
   (claim_C8 (fun n => n + 1) (fun n => n * 2) (fun n => n * 3)
      ⟨5, none⟩ ⟨true, some (NetParentStx.netDeclaration (some 4)), none⟩).2.2⟩

/-- C10: every member of an elaborated anonymous program is also added to
the parent scope wrapped in a transparent member symbol, making it visible
to lookups there. -/
theorem claim_C10 {α : Type} (buildMembers : Nat → List α)
    (parentMembers : List (ScopeEntry α)) (memberStxs : List Nat) :
    ((AnonymousProgramSymbol.fromSyntax buildMembers parentMembers memberStxs).1 =
      memberStxs.flatMap buildMembers) ∧
    ((AnonymousProgramSymbol.fromSyntax buildMembers parentMembers memberStxs).2 =
      parentMembers ++
        ((AnonymousProgramSymbol.fromSyntax buildMembers parentMembers memberStxs).1).map
          ScopeEntry.transparent) ∧
    (∀ m ∈ (AnonymousProgramSymbol.fromSyntax buildMembers parentMembers memberStxs).1,
      ScopeEntry.transparent m ∈
        (AnonymousProgramSymbol.fromSyntax buildMembers parentMembers memberStxs).2 ∧
      m ∈ visibleSymbols
        (AnonymousProgramSymbol.fromSyntax buildMembers parentMembers memberStxs).2) := by
  refine ⟨rfl, rfl, ?_⟩
  intro m hm
  constructor
  · simp only [AnonymousProgramSymbol.fromSyntax, List.mem_append, List.mem_map]
    exact Or.inr ⟨m, hm, rfl⟩
  · simp only [AnonymousProgramSymbol.fromSyntax, visibleSymbols, List.map_append,
      List.map_map, List.mem_append, List.mem_map]
    refine Or.inr ⟨m, hm, rfl⟩

theorem claim_C10_witness :
    ScopeEntry.transparent 0 ∈
      (AnonymousProgramSymbol.fromSyntax (fun n => [n, n + 1])
        [ScopeEntry.direct 9] [0]).2 ∧
    0 ∈ visibleSymbols (AnonymousProgramSymbol.fromSyntax (fun n => [n, n + 1])
        [ScopeEntry.direct 9] [0]).2 :=
  (claim_C10 (fun n => [n, n + 1]) [ScopeEntry.direct 9] [0]).2.2 0 (by decide)

/-- C3: elaborating a UDP declared with the wildcard port list form.  The
source carries only a TODO for this case: no UnsupportedUdpPortList
diagnostic is issued; the empty port list then trips the two-port check
instead. -/
theorem claim_C3_wildcard_behavior :
    (PrimitiveSymbol.fromSyntax c3WildcardDecl).1.ports = [] ∧
    (PrimitiveSymbol.fromSyntax c3WildcardDecl).2 =
      [⟨DiagCode.PrimitiveTwoPorts, 1, ""⟩] := by
  decide

/-- The implicit nets produced for a whole continuous-assign statement are
exactly one net per unresolved bare LHS identifier, in order. -/
theorem implicitNets_flatMap_eq (scope : CAScope)
    (h : scope.defaultNetType.isError = false) (es : List AssignExprStx) :
    es.flatMap (implicitNetsForExpr scope) =
      (findPotentiallyImplicitNets scope (es.flatMap assignLhsIdents)).map
        (fun t => NetSymbol.createImplicit t scope.defaultNetType) := by
  induction es with
  | nil => simp [findPotentiallyImplicitNets]
  | cons e rest ih =>
    simp only [List.flatMap_cons, findPotentiallyImplicitNets, List.filter_append,
      List.map_append] at ih ⊢
    rw [ih]
    congr 1
    match e with
    | .assignment lhs =>
      simp [implicitNetsForExpr, assignLhsIdents, h, findPotentiallyImplicitNets]
    | .nonAssignment l =>
      simp [implicitNetsForExpr, assignLhsIdents, h]

/-- C1: with a default nettype that is not `none`, a continuous assignment
creates exactly one logic-typed implicit net per unresolved bare LHS
identifier (and none for identifiers that resolve), one continuous-assign
symbol per assignment expression, and no diagnostics; seed scenario 1
(`module m; wire foo; assign foo = 1, foo = 'z; endmodule`) elaborates with
no diagnostics, one net `foo`, and two continuous-assign symbols. -/
theorem claim_C1 :
    (∀ (scope : CAScope) (stx : ContinuousAssignStx),
      scope.defaultNetType.isError = false →
      (ContinuousAssignSymbol.fromSyntax scope stx).1.length =
          stx.assignments.length ∧
      (ContinuousAssignSymbol.fromSyntax scope stx).2.1 =
        (findPotentiallyImplicitNets scope
            (stx.assignments.flatMap assignLhsIdents)).map
          (fun t => NetSymbol.createImplicit t scope.defaultNetType) ∧
      (∀ n ∈ (ContinuousAssignSymbol.fromSyntax scope stx).2.1,
        n.setTypeIsLogic = true ∧ n.isImplicit = true ∧
          scope.resolvedNames.contains n.name = false) ∧
      (ContinuousAssignSymbol.fromSyntax scope stx).2.2 = []) ∧
    (seed1Result.1.map NetSym.name = ["foo"] ∧
     seed1Result.2.1.length = 2 ∧
     seed1Result.2.2.1 = [] ∧
     seed1Result.2.2.2 = []) := by
  constructor
  · intro scope stx h
    refine ⟨by simp [ContinuousAssignSymbol.fromSyntax], ?_, ?_, rfl⟩
    · exact implicitNets_flatMap_eq scope h stx.assignments
    · intro n hn
      rw [show (ContinuousAssignSymbol.fromSyntax scope stx).2.1 =
            stx.assignments.flatMap (implicitNetsForExpr scope) from rfl,
          implicitNets_flatMap_eq scope h stx.assignments] at hn
      rcases List.mem_map.mp hn with ⟨t, ht, rfl⟩
      rcases List.mem_filter.mp ht with ⟨-, hres⟩
      refine ⟨rfl, rfl, ?_⟩
      simpa [NetSymbol.createImplicit] using hres
  · exact ⟨rfl, rfl, rfl, rfl⟩

theorem claim_C1_witness :
    ((ContinuousAssignSymbol.fromSyntax seed1Scope seed1AssignStx).1.length =
        seed1AssignStx.assignments.length ∧
     (ContinuousAssignSymbol.fromSyntax seed1Scope seed1AssignStx).2.1 =
       (findPotentiallyImplicitNets seed1Scope
           (seed1AssignStx.assignments.flatMap assignLhsIdents)).map
         (fun t => NetSymbol.createImplicit t seed1Scope.defaultNetType) ∧
     (∀ n ∈ (ContinuousAssignSymbol.fromSyntax seed1Scope seed1AssignStx).2.1,
       n.setTypeIsLogic = true ∧ n.isImplicit = true ∧
         seed1Scope.resolvedNames.contains n.name = false) ∧
     (ContinuousAssignSymbol.fromSyntax seed1Scope seed1AssignStx).2.2 = []) :=
  claim_C1.1 seed1Scope seed1AssignStx (by decide)


/-- With no lifetime keyword among the modifiers, the modifier loop leaves
the lifetime request unchanged. -/
theorem applyModifiers_lifetime_of_no_kw (p : Bool)
    (mods : List (DeclModifier × Nat)) :
    ∀ st : ModState,
    (∀ ml ∈ mods, ml.1 ≠ DeclModifier.StaticKeyword ∧
        ml.1 ≠ DeclModifier.AutomaticKeyword) →
    (applyModifiers p mods st).lifetime = st.lifetime := by
  induction mods with
  | nil => intro st _; rfl
  | cons ml rest ih =>
    intro st h
    have hm := h ml (List.mem_cons_self _ _)
    have hrest := fun ml' hml' => h ml' (List.mem_cons_of_mem _ hml')
    have step : (applyModifiers p (ml :: rest) st).lifetime =
        (applyModifier p st ml).lifetime := ih _ hrest
    rw [step]
    rcases ml with ⟨m, mloc⟩
    cases m with
    | VarKeyword => rfl
    | ConstKeyword => rfl
    | StaticKeyword => exact absurd rfl hm.1
    | AutomaticKeyword => exact absurd rfl hm.2

/-- Once a lifetime keyword occurs (or one was already recorded), the loop
ends with an explicit lifetime request. -/
theorem applyModifiers_isSome (p : Bool) (mods : List (DeclModifier × Nat)) :
    ∀ st : ModState,
    ((∃ ml ∈ mods, ml.1 = DeclModifier.StaticKeyword ∨
        ml.1 = DeclModifier.AutomaticKeyword) ∨ st.lifetime.isSome = true) →
    (applyModifiers p mods st).lifetime.isSome = true := by
  induction mods with
  | nil =>
    intro st h
    rcases h with ⟨ml, hml, _⟩ | h
    · exact absurd hml (List.not_mem_nil _)
    · exact h
  | cons ml rest ih =>
    intro st h
    show (applyModifiers p rest (applyModifier p st ml)).lifetime.isSome = true
    rcases h with ⟨ml', hml', hk⟩ | h
    · rcases List.mem_cons.mp hml' with rfl | hml'
      · refine ih _ (Or.inr ?_)
        rcases ml' with ⟨m, mloc⟩
        rcases hk with hk | hk <;> subst hk <;> cases p <;> simp [applyModifier]
      · exact ih _ (Or.inl ⟨ml', hml', hk⟩)
    · refine ih _ (Or.inr ?_)
      rcases ml with ⟨m, mloc⟩
      cases m <;> cases p <;> simp [applyModifier] <;> simpa using h

/-- The modifier loop only appends diagnostics. -/
theorem applyModifiers_diags_mono (p : Bool) (mods : List (DeclModifier × Nat)) :
    ∀ (st : ModState) (dg : Diag),
    dg ∈ st.diags → dg ∈ (applyModifiers p mods st).diags := by
  induction mods with
  | nil => intro st dg h; exact h
  | cons ml rest ih =>
    intro st dg h
    show dg ∈ (applyModifiers p rest (applyModifier p st ml)).diags
    refine ih _ dg ?_
    rcases ml with ⟨m, mloc⟩
    cases m <;> cases p <;> simp [applyModifier] <;> simp [h]

/-- Every diagnostic produced by the modifier loop itself is an
AutomaticNotAllowed. -/
theorem applyModifiers_diag_codes (p : Bool) (mods : List (DeclModifier × Nat)) :
    ∀ (st : ModState) (dg : Diag),
    dg ∈ (applyModifiers p mods st).diags →
    dg ∈ st.diags ∨ dg.code = DiagCode.AutomaticNotAllowed := by
  induction mods with
  | nil => intro st dg h; exact Or.inl h
  | cons ml rest ih =>
    intro st dg h
    have h' : dg ∈ (applyModifiers p rest (applyModifier p st ml)).diags := h
    rcases ih _ dg h' with hmem | hcode
    · rcases ml with ⟨m, mloc⟩
      cases m <;> cases p <;> simp [applyModifier] at hmem <;>
        first
          | exact Or.inl hmem
          | rcases hmem with hmem | hmem
            · exact Or.inl hmem
            · subst hmem; exact Or.inr rfl
    · exact Or.inr hcode

/-- In a procedural context the modifier loop issues no diagnostics. -/
theorem applyModifiers_proc_diags (mods : List (DeclModifier × Nat)) :
    ∀ st : ModState, (applyModifiers true mods st).diags = st.diags := by
  induction mods with
  | nil => intro st; rfl
  | cons ml rest ih =>
    intro st
    have step : (applyModifiers true (ml :: rest) st).diags =
        (applyModifier true st ml).diags := ih _
    rw [step]
    rcases ml with ⟨m, mloc⟩
    cases m <;> simp [applyModifier]

/-- Outside a procedural context every lifetime keyword requests a static
lifetime, so the loop ends on a static request. -/
theorem applyModifiers_nonproc_static (mods : List (DeclModifier × Nat)) :
    ∀ st : ModState,
    ((∃ ml ∈ mods, ml.1 = DeclModifier.StaticKeyword ∨
        ml.1 = DeclModifier.AutomaticKeyword) ∨
      st.lifetime = some VariableLifetime.Static) →
    (applyModifiers false mods st).lifetime = some VariableLifetime.Static := by
  induction mods with
  | nil =>
    intro st h
    rcases h with ⟨ml, hml, _⟩ | h
    · exact absurd hml (List.not_mem_nil _)
    · exact h
  | cons ml rest ih =>
    intro st h
    show (applyModifiers false rest (applyModifier false st ml)).lifetime =
      some VariableLifetime.Static
    rcases h with ⟨ml', hml', hk⟩ | h
    · rcases List.mem_cons.mp hml' with rfl | hml'
      · refine ih _ (Or.inr ?_)
        rcases ml' with ⟨m, mloc⟩
        rcases hk with hk | hk <;> subst hk <;> simp [applyModifier]
      · exact ih _ (Or.inl ⟨ml', hml', hk⟩)
    · refine ih _ (Or.inr ?_)
      rcases ml with ⟨m, mloc⟩
      cases m <;> simp [applyModifier] <;> simpa using h

/-- Outside a procedural context each automatic keyword is diagnosed at its
own location. -/
theorem applyModifiers_nonproc_autodiag (mods : List (DeclModifier × Nat)) :
    ∀ (st : ModState) (l : Nat),
    (DeclModifier.AutomaticKeyword, l) ∈ mods →
    (⟨DiagCode.AutomaticNotAllowed, l, ""⟩ : Diag) ∈
      (applyModifiers false mods st).diags := by
  induction mods with
  | nil => intro st l h; exact absurd h (List.not_mem_nil _)
  | cons ml rest ih =>
    intro st l h
    show (⟨DiagCode.AutomaticNotAllowed, l, ""⟩ : Diag) ∈
      (applyModifiers false rest (applyModifier false st ml)).diags
    rcases List.mem_cons.mp h with heq | hmem
    · subst heq
      refine applyModifiers_diags_mono false rest _ _ ?_
      simp [applyModifier]
    · exact ih _ l hmem

/-- In a procedural context, with no static keyword present, an automatic
keyword leaves the loop on an automatic request. -/
theorem applyModifiers_proc_auto (mods : List (DeclModifier × Nat)) :
    ∀ st : ModState,
    (∀ ml ∈ mods, ml.1 ≠ DeclModifier.StaticKeyword) →
    ((∃ ml ∈ mods, ml.1 = DeclModifier.AutomaticKeyword) ∨
      st.lifetime = some VariableLifetime.Automatic) →
    (applyModifiers true mods st).lifetime = some VariableLifetime.Automatic := by
  induction mods with
  | nil =>
    intro st _ h
    rcases h with ⟨ml, hml, _⟩ | h
    · exact absurd hml (List.not_mem_nil _)
    · exact h
  | cons ml rest ih =>
    intro st hs h
    have hs' : ∀ ml ∈ rest, ml.1 ≠ DeclModifier.StaticKeyword :=
      fun ml' hml' => hs ml' (List.mem_cons_of_mem _ hml')
    show (applyModifiers true rest (applyModifier true st ml)).lifetime =
      some VariableLifetime.Automatic
    rcases h with ⟨ml', hml', hk⟩ | h
    · rcases List.mem_cons.mp hml' with rfl | hml'
      · refine ih _ hs' (Or.inr ?_)
        rcases ml' with ⟨m, mloc⟩
        subst hk
        simp [applyModifier]
      · exact ih _ hs' (Or.inl ⟨ml', hml', hk⟩)
    · refine ih _ hs' (Or.inr ?_)
      rcases ml with ⟨m, mloc⟩
      cases m with
      | VarKeyword => simpa [applyModifier] using h
      | ConstKeyword => simpa [applyModifier] using h
      | StaticKeyword =>
        exact absurd rfl (hs (DeclModifier.StaticKeyword, mloc) (List.mem_cons_self _ _))
      | AutomaticKeyword => simp [applyModifier]

/-- Each per-declarator diagnostic is a static-initializer or const error. -/
theorem fromDeclarator_diag_codes (scope : VarScope) (c hEx : Bool)
    (lt : VariableLifetime) (d : DeclaratorSyntax) :
    ∀ dg ∈ (VariableSymbol.fromDeclarator scope c hEx lt d).2,
      dg.code = DiagCode.StaticInitializerMustBeExplicit ∨
        dg.code = DiagCode.ConstVarNoInitializer := by
  intro dg h
  simp only [VariableSymbol.fromDeclarator, List.mem_append] at h
  rcases h with h | h
  · split at h
    · rcases List.mem_singleton.mp h with rfl; exact Or.inl rfl
    · exact absurd h (List.not_mem_nil _)
  · split at h
    · rcases List.mem_singleton.mp h with rfl; exact Or.inr rfl
    · exact absurd h (List.not_mem_nil _)

/-- With an explicit lifetime keyword, a declarator never produces the
StaticInitializerMustBeExplicit diagnostic. -/
theorem fromDeclarator_no_simbe (scope : VarScope) (c : Bool)
    (lt : VariableLifetime) (d : DeclaratorSyntax) :
    ∀ dg ∈ (VariableSymbol.fromDeclarator scope c true lt d).2,
      dg.code ≠ DiagCode.StaticInitializerMustBeExplicit := by
  intro dg h
  simp only [VariableSymbol.fromDeclarator, List.mem_append] at h
  rcases h with h | h
  · rw [if_neg (by simp)] at h
    exact absurd h (List.not_mem_nil _)
  · split at h
    · rcases List.mem_singleton.mp h with rfl; simp
    · exact absurd h (List.not_mem_nil _)

/-- C4: a declarator with an initializer in a procedural scope, with no
explicit lifetime keyword and a default lifetime of static, is diagnosed
with StaticInitializerMustBeExplicit; no such diagnostic is issued when an
explicit lifetime keyword is present (even a demoted `automatic`) or when
the declarator has no initializer. -/
theorem claim_C4 (scope : VarScope) (stx : DataDeclarationSyntax)
    (d : DeclaratorSyntax) :
    (scope.isProceduralContext = true →
      (∀ ml ∈ stx.modifiers, ml.1 ≠ DeclModifier.StaticKeyword ∧
          ml.1 ≠ DeclModifier.AutomaticKeyword) →
      getDefaultLifetime scope = VariableLifetime.Static →
      d ∈ stx.declarators → d.hasInitializer = true →
      (⟨DiagCode.StaticInitializerMustBeExplicit, d.loc, ""⟩ : Diag) ∈
        (VariableSymbol.fromSyntax scope stx).2) ∧
    ((∃ ml ∈ stx.modifiers, ml.1 = DeclModifier.StaticKeyword ∨
        ml.1 = DeclModifier.AutomaticKeyword) →
      ∀ dg ∈ (VariableSymbol.fromSyntax scope stx).2,
        dg.code ≠ DiagCode.StaticInitializerMustBeExplicit) ∧
    (d.hasInitializer = false →
      ∀ (c hEx : Bool) (lt : VariableLifetime),
      ∀ dg ∈ (VariableSymbol.fromDeclarator scope c hEx lt d).2,
        dg.code ≠ DiagCode.StaticInitializerMustBeExplicit) := by
  have hsplit : (VariableSymbol.fromSyntax scope stx).2 =
      (applyModifiers scope.isProceduralContext stx.modifiers
          ⟨false, none, []⟩).diags ++
        (stx.declarators.map (VariableSymbol.fromDeclarator scope
          (applyModifiers scope.isProceduralContext stx.modifiers
            ⟨false, none, []⟩).isConst
          (applyModifiers scope.isProceduralContext stx.modifiers
            ⟨false, none, []⟩).lifetime.isSome
          ((applyModifiers scope.isProceduralContext stx.modifiers
            ⟨false, none, []⟩).lifetime.getD
            (getDefaultLifetime scope)))).flatMap Prod.snd := rfl
  refine ⟨?_, ?_, ?_⟩
  · intro hproc hmods hdef hd hinit
    have hlt : (applyModifiers scope.isProceduralContext stx.modifiers
        ⟨false, none, []⟩).lifetime = none :=
      applyModifiers_lifetime_of_no_kw _ _ _ hmods
    rw [hsplit, hlt]
    simp only [Option.getD_none, Option.isSome_none, hdef, List.mem_append,
      List.mem_flatMap, List.mem_map]
    refine Or.inr ⟨_, ⟨d, hd, rfl⟩, ?_⟩
    simp [VariableSymbol.fromDeclarator, hinit, hproc]
  · intro hex dg hdg
    rw [hsplit] at hdg
    have hsome : (applyModifiers scope.isProceduralContext stx.modifiers
        ⟨false, none, []⟩).lifetime.isSome = true :=
      applyModifiers_isSome _ _ _ (Or.inl hex)
    rcases List.mem_append.mp hdg with hdg | hdg
    · rcases applyModifiers_diag_codes _ _ _ dg hdg with hmem | hcode
      · exact absurd hmem (List.not_mem_nil _)
      · rw [hcode]; decide
    · rcases List.mem_flatMap.mp hdg with ⟨pair, hpair, hdgin⟩
      rcases List.mem_map.mp hpair with ⟨d', hd', rfl⟩
      rw [hsome] at hdgin
      exact fromDeclarator_no_simbe scope _ _ d' dg hdgin
  · intro hinit c hEx lt dg hdg
    simp only [VariableSymbol.fromDeclarator, List.mem_append] at hdg
    rcases hdg with h | h
    · rw [if_neg (by simp [hinit])] at h
      exact absurd h (List.not_mem_nil _)
    · split at h
      · rcases List.mem_singleton.mp h with rfl; simp
      · exact absurd h (List.not_mem_nil _)

theorem claim_C4_witness :
    (⟨DiagCode.StaticInitializerMustBeExplicit, 4, ""⟩ : Diag) ∈
      (VariableSymbol.fromSyntax ⟨ScopeSymKind.OtherScope, true⟩
        ⟨[], [⟨"v", 4, true⟩]⟩).2 :=
  (claim_C4 ⟨ScopeSymKind.OtherScope, true⟩ ⟨[], [⟨"v", 4, true⟩]⟩
      ⟨"v", 4, true⟩).1 rfl (by decide) rfl (by decide) rfl

/-- C5: a data declaration carrying `automatic` in a non-procedural scope is
diagnosed with AutomaticNotAllowed and all its variables get Static
lifetime; in a procedural scope the automatic modifier (with no static
keyword alongside) yields Automatic lifetime and no AutomaticNotAllowed
diagnostic. -/
theorem claim_C5 (scope : VarScope) (stx : DataDeclarationSyntax) :
    (scope.isProceduralContext = false →
      hasModifier stx DeclModifier.AutomaticKeyword →
      (∃ dg ∈ (VariableSymbol.fromSyntax scope stx).2,
        dg.code = DiagCode.AutomaticNotAllowed) ∧
      (∀ v ∈ (VariableSymbol.fromSyntax scope stx).1,
        v.lifetime = VariableLifetime.Static)) ∧
    (scope.isProceduralContext = true →
      hasModifier stx DeclModifier.AutomaticKeyword →
      ¬ hasModifier stx DeclModifier.StaticKeyword →
      (∀ v ∈ (VariableSymbol.fromSyntax scope stx).1,
        v.lifetime = VariableLifetime.Automatic) ∧
      (∀ dg ∈ (VariableSymbol.fromSyntax scope stx).2,
        dg.code ≠ DiagCode.AutomaticNotAllowed)) := by
  have hsplit2 : (VariableSymbol.fromSyntax scope stx).2 =
      (applyModifiers scope.isProceduralContext stx.modifiers
          ⟨false, none, []⟩).diags ++
        (stx.declarators.map (VariableSymbol.fromDeclarator scope
          (applyModifiers scope.isProceduralContext stx.modifiers
            ⟨false, none, []⟩).isConst
          (applyModifiers scope.isProceduralContext stx.modifiers
            ⟨false, none, []⟩).lifetime.isSome
          ((applyModifiers scope.isProceduralContext stx.modifiers
            ⟨false, none, []⟩).lifetime.getD
            (getDefaultLifetime scope)))).flatMap Prod.snd := rfl
  have hsplit1 : (VariableSymbol.fromSyntax scope stx).1 =
      (stx.declarators.map (VariableSymbol.fromDeclarator scope
          (applyModifiers scope.isProceduralContext stx.modifiers
            ⟨false, none, []⟩).isConst
          (applyModifiers scope.isProceduralContext stx.modifiers
            ⟨false, none, []⟩).lifetime.isSome
          ((applyModifiers scope.isProceduralContext stx.modifiers
            ⟨false, none, []⟩).lifetime.getD
            (getDefaultLifetime scope)))).map Prod.fst := rfl
  constructor
  · rintro hproc ⟨ml, hml, hm⟩
    have hst : (applyModifiers scope.isProceduralContext stx.modifiers
        ⟨false, none, []⟩).lifetime = some VariableLifetime.Static := by
      rw [hproc]
      exact applyModifiers_nonproc_static _ _ (Or.inl ⟨ml, hml, Or.inr hm⟩)
    constructor
    · rcases ml with ⟨m, mloc⟩
      cases hm
      refine ⟨⟨DiagCode.AutomaticNotAllowed, mloc, ""⟩, ?_, rfl⟩
      rw [hsplit2]
      refine List.mem_append.mpr (Or.inl ?_)
      rw [hproc]
      exact applyModifiers_nonproc_autodiag _ _ mloc hml
    · intro v hv
      rw [hsplit1, hst] at hv
      rcases List.mem_map.mp hv with ⟨pair, hpair, rfl⟩
      rcases List.mem_map.mp hpair with ⟨d', hd', rfl⟩
      rfl
  · rintro hproc ⟨ml, hml, hm⟩ hnostatic
    have hst : (applyModifiers scope.isProceduralContext stx.modifiers
        ⟨false, none, []⟩).lifetime = some VariableLifetime.Automatic := by
      rw [hproc]
      refine applyModifiers_proc_auto _ _ ?_ (Or.inl ⟨ml, hml, hm⟩)
      intro ml' hml' heq
      exact hnostatic ⟨ml', hml', heq⟩
    constructor
    · intro v hv
      rw [hsplit1, hst] at hv
      rcases List.mem_map.mp hv with ⟨pair, hpair, rfl⟩
      rcases List.mem_map.mp hpair with ⟨d', hd', rfl⟩
      rfl
    · intro dg hdg
      rw [hsplit2] at hdg
      rcases List.mem_append.mp hdg with hdg | hdg
      · rw [hproc, applyModifiers_proc_diags] at hdg
        exact absurd hdg (List.not_mem_nil _)
      · rcases List.mem_flatMap.mp hdg with ⟨pair, hpair, hdgin⟩
        rcases List.mem_map.mp hpair with ⟨d', hd', rfl⟩
        rcases fromDeclarator_diag_codes scope _ _ _ d' dg hdgin with hc | hc <;>
          rw [hc] <;> decide

theorem claim_C5_witness :
    ((∃ dg ∈ (VariableSymbol.fromSyntax ⟨ScopeSymKind.OtherScope, false⟩
        ⟨[(DeclModifier.AutomaticKeyword, 7)], [⟨"v", 8, false⟩]⟩).2,
       dg.code = DiagCode.AutomaticNotAllowed) ∧
     (∀ v ∈ (VariableSymbol.fromSyntax ⟨ScopeSymKind.OtherScope, false⟩
        ⟨[(DeclModifier.AutomaticKeyword, 7)], [⟨"v", 8, false⟩]⟩).1,
       v.lifetime = VariableLifetime.Static)) ∧
    ((∀ v ∈ (VariableSymbol.fromSyntax ⟨ScopeSymKind.OtherScope, true⟩
        ⟨[(DeclModifier.AutomaticKeyword, 7)], [⟨"v", 8, false⟩]⟩).1,
       v.lifetime = VariableLifetime.Automatic) ∧
     (∀ dg ∈ (VariableSymbol.fromSyntax ⟨ScopeSymKind.OtherScope, true⟩
        ⟨[(DeclModifier.AutomaticKeyword, 7)], [⟨"v", 8, false⟩]⟩).2,
       dg.code ≠ DiagCode.AutomaticNotAllowed)) :=
  ⟨(claim_C5 ⟨ScopeSymKind.OtherScope, false⟩
      ⟨[(DeclModifier.AutomaticKeyword, 7)], [⟨"v", 8, false⟩]⟩).1 rfl
      ⟨(DeclModifier.AutomaticKeyword, 7), by decide, rfl⟩,
   (claim_C5 ⟨ScopeSymKind.OtherScope, true⟩
      ⟨[(DeclModifier.AutomaticKeyword, 7)], [⟨"v", 8, false⟩]⟩).2 rfl
      ⟨(DeclModifier.AutomaticKeyword, 7), by decide, rfl⟩
      (by unfold hasModifier; decide)⟩

theorem applyInputSkew_outputSkew (acc : ClockingAcc) (inSk : Option ClockingSkewStx) :
    (applyInputSkew acc inSk).outputSkew = acc.outputSkew := by
  rcases inSk with _ | s
  · rfl
  · rcases h : acc.inputSkew with _ | s0 <;> simp [applyInputSkew, h]

theorem applyInputSkew_members (acc : ClockingAcc) (inSk : Option ClockingSkewStx) :
    (applyInputSkew acc inSk).members = acc.members := by
  rcases inSk with _ | s
  · rfl
  · rcases h : acc.inputSkew with _ | s0 <;> simp [applyInputSkew, h]

theorem applyOutputSkew_inputSkew (acc : ClockingAcc) (outSk : Option ClockingSkewStx) :
    (applyOutputSkew acc outSk).inputSkew = acc.inputSkew := by
  rcases outSk with _ | s
  · rfl
  · rcases h : acc.outputSkew with _ | s0 <;> simp [applyOutputSkew, h]

theorem applyOutputSkew_members (acc : ClockingAcc) (outSk : Option ClockingSkewStx) :
    (applyOutputSkew acc outSk).members = acc.members := by
  rcases outSk with _ | s
  · rfl
  · rcases h : acc.outputSkew with _ | s0 <;> simp [applyOutputSkew, h]

/-- Input-skew diagnostics of one input-skew application. -/
theorem applyInputSkew_inDiags (acc : ClockingAcc) (inSk : Option ClockingSkewStx) :
    diagsWithCode DiagCode.MultipleDefaultInputSkew (applyInputSkew acc inSk).diags =
      diagsWithCode DiagCode.MultipleDefaultInputSkew acc.diags ++
        (match inSk, acc.inputSkew with
         | some s, some _ => [⟨DiagCode.MultipleDefaultInputSkew, s.firstTokenLoc, ""⟩]
         | _, _ => []) := by
  rcases inSk with _ | s
  · simp [applyInputSkew]
  · rcases h : acc.inputSkew with _ | s0 <;>
      simp [applyInputSkew, h, diagsWithCode, List.filter_append]

theorem applyInputSkew_outDiags (acc : ClockingAcc) (inSk : Option ClockingSkewStx) :
    diagsWithCode DiagCode.MultipleDefaultOutputSkew (applyInputSkew acc inSk).diags =
      diagsWithCode DiagCode.MultipleDefaultOutputSkew acc.diags := by
  rcases inSk with _ | s
  · rfl
  · rcases h : acc.inputSkew with _ | s0 <;>
      simp [applyInputSkew, h, diagsWithCode, List.filter_append]

theorem applyOutputSkew_outDiags (acc : ClockingAcc) (outSk : Option ClockingSkewStx) :
    diagsWithCode DiagCode.MultipleDefaultOutputSkew (applyOutputSkew acc outSk).diags =
      diagsWithCode DiagCode.MultipleDefaultOutputSkew acc.diags ++
        (match outSk, acc.outputSkew with
         | some s, some _ => [⟨DiagCode.MultipleDefaultOutputSkew, s.firstTokenLoc, ""⟩]
         | _, _ => []) := by
  rcases outSk with _ | s
  · simp [applyOutputSkew]
  · rcases h : acc.outputSkew with _ | s0 <;>
      simp [applyOutputSkew, h, diagsWithCode, List.filter_append]

theorem applyOutputSkew_inDiags (acc : ClockingAcc) (outSk : Option ClockingSkewStx) :
    diagsWithCode DiagCode.MultipleDefaultInputSkew (applyOutputSkew acc outSk).diags =
      diagsWithCode DiagCode.MultipleDefaultInputSkew acc.diags := by
  rcases outSk with _ | s
  · rfl
  · rcases h : acc.outputSkew with _ | s0 <;>
      simp [applyOutputSkew, h, diagsWithCode, List.filter_append]

theorem applyInputSkew_inputSkew (acc : ClockingAcc) (inSk : Option ClockingSkewStx) :
    (applyInputSkew acc inSk).inputSkew =
      match inSk, acc.inputSkew with
      | some s, none => some s
      | _, _ => acc.inputSkew := by
  rcases inSk with _ | s
  · rfl
  · rcases h : acc.inputSkew with _ | s0 <;> simp [applyInputSkew, h]

theorem applyOutputSkew_outputSkew (acc : ClockingAcc) (outSk : Option ClockingSkewStx) :
    (applyOutputSkew acc outSk).outputSkew =
      match outSk, acc.outputSkew with
      | some s, none => some s
      | _, _ => acc.outputSkew := by
  rcases outSk with _ | s
  · rfl
  · rcases h : acc.outputSkew with _ | s0 <;> simp [applyOutputSkew, h]

theorem clockingLoop_members (items : List ClockingItemStx) :
    ∀ acc : ClockingAcc,
    (clockingItemsLoop items acc).members = acc.members ++ memberItemsOf items := by
  induction items with
  | nil => intro acc; simp [clockingItemsLoop, memberItemsOf]
  | cons item rest ih =>
    intro acc
    show (clockingItemsLoop rest (clockingStep acc item)).members = _
    rw [ih]
    rcases item with ⟨inSk, outSk⟩ | m
    · simp [clockingStep, applyOutputSkew_members, applyInputSkew_members,
        memberItemsOf]
    · simp [clockingStep, memberItemsOf]

theorem clockingLoop_inputSkew (items : List ClockingItemStx) :
    ∀ acc : ClockingAcc,
    (clockingItemsLoop items acc).inputSkew =
      recordedSkew acc.inputSkew (inputSkewsOf items) := by
  induction items with
  | nil =>
    intro acc
    rcases h : acc.inputSkew with _ | s <;> simp [clockingItemsLoop, recordedSkew,
      inputSkewsOf, h]
  | cons item rest ih =>
    intro acc
    show (clockingItemsLoop rest (clockingStep acc item)).inputSkew = _
    rw [ih]
    rcases item with ⟨inSk, outSk⟩ | m
    · rw [show (clockingStep acc (ClockingItemStx.defaultSkew inSk outSk)).inputSkew =
          (applyInputSkew acc inSk).inputSkew from applyOutputSkew_inputSkew _ _,
        applyInputSkew_inputSkew]
      rcases inSk with _ | s
      · simp [inputSkewsOf]
      · rcases h : acc.inputSkew with _ | s0 <;>
          simp [inputSkewsOf, recordedSkew, h]
    · simp [clockingStep, inputSkewsOf, recordedSkew]

theorem clockingLoop_outputSkew (items : List ClockingItemStx) :
    ∀ acc : ClockingAcc,
    (clockingItemsLoop items acc).outputSkew =
      recordedSkew acc.outputSkew (outputSkewsOf items) := by
  induction items with
  | nil =>
    intro acc
    rcases h : acc.outputSkew with _ | s <;> simp [clockingItemsLoop, recordedSkew,
      outputSkewsOf, h]
  | cons item rest ih =>
    intro acc
    show (clockingItemsLoop rest (clockingStep acc item)).outputSkew = _
    rw [ih]
    rcases item with ⟨inSk, outSk⟩ | m
    · rw [show (clockingStep acc (ClockingItemStx.defaultSkew inSk outSk)).outputSkew =
          (applyOutputSkew (applyInputSkew acc inSk) outSk).outputSkew from rfl,
        applyOutputSkew_outputSkew, applyInputSkew_outputSkew]
      rcases outSk with _ | s
      · simp [outputSkewsOf]
      · rcases h : acc.outputSkew with _ | s0 <;>
          simp [outputSkewsOf, recordedSkew, h]
    · simp [clockingStep, outputSkewsOf, recordedSkew]

theorem clockingLoop_inDiags (items : List ClockingItemStx) :
    ∀ acc : ClockingAcc,
    diagsWithCode DiagCode.MultipleDefaultInputSkew
        (clockingItemsLoop items acc).diags =
      diagsWithCode DiagCode.MultipleDefaultInputSkew acc.diags ++
        (dupSkewTail acc.inputSkew (inputSkewsOf items)).map
          (fun s => ⟨DiagCode.MultipleDefaultInputSkew, s.firstTokenLoc, ""⟩) := by
  induction items with
  | nil =>
    intro acc
    rcases h : acc.inputSkew with _ | s <;>
      simp [clockingItemsLoop, dupSkewTail, inputSkewsOf, h]
  | cons item rest ih =>
    intro acc
    show diagsWithCode _ (clockingItemsLoop rest (clockingStep acc item)).diags = _
    rw [ih]
    rcases item with ⟨inSk, outSk⟩ | m
    · rw [show (clockingStep acc (ClockingItemStx.defaultSkew inSk outSk)) =
          applyOutputSkew (applyInputSkew acc inSk) outSk from rfl,
        applyOutputSkew_inDiags, applyInputSkew_inDiags,
        applyOutputSkew_inputSkew, applyInputSkew_inputSkew]
      rcases inSk with _ | s
      · simp [inputSkewsOf]
      · rcases h : acc.inputSkew with _ | s0 <;>
          simp [inputSkewsOf, dupSkewTail, h]
    · rw [show (clockingStep acc (ClockingItemStx.member m)).diags = acc.diags from rfl,
        show (clockingStep acc (ClockingItemStx.member m)).inputSkew =
          acc.inputSkew from rfl]
      simp [inputSkewsOf]

theorem clockingLoop_outDiags (items : List ClockingItemStx) :
    ∀ acc : ClockingAcc,
    diagsWithCode DiagCode.MultipleDefaultOutputSkew
        (clockingItemsLoop items acc).diags =
      diagsWithCode DiagCode.MultipleDefaultOutputSkew acc.diags ++
        (dupSkewTail acc.outputSkew (outputSkewsOf items)).map
          (fun s => ⟨DiagCode.MultipleDefaultOutputSkew, s.firstTokenLoc, ""⟩) := by
  induction items with
  | nil =>
    intro acc
    rcases h : acc.outputSkew with _ | s <;>
      simp [clockingItemsLoop, dupSkewTail, outputSkewsOf, h]
  | cons item rest ih =>
    intro acc
    show diagsWithCode _ (clockingItemsLoop rest (clockingStep acc item)).diags = _
    rw [ih]
    rcases item with ⟨inSk, outSk⟩ | m
    · rw [show (clockingStep acc (ClockingItemStx.defaultSkew inSk outSk)) =
          applyOutputSkew (applyInputSkew acc inSk) outSk from rfl,
        applyOutputSkew_outDiags, applyInputSkew_outDiags,
        applyOutputSkew_outputSkew, applyInputSkew_outputSkew]
      rcases outSk with _ | s
      · simp [outputSkewsOf]
      · rcases h : acc.outputSkew with _ | s0 <;>
          simp [outputSkewsOf, dupSkewTail, h]
    · rw [show (clockingStep acc (ClockingItemStx.member m)).diags = acc.diags from rfl,
        show (clockingStep acc (ClockingItemStx.member m)).outputSkew =
          acc.outputSkew from rfl]
      simp [outputSkewsOf]

/-- C7: a clocking block records the first default input skew and the first
default output skew; every later default-skew item specifying an input
(resp. output) skew is diagnosed with MultipleDefaultInputSkew (resp.
MultipleDefaultOutputSkew) at its own location and does not replace the
recorded skew; all non-default-skew items become scope members in order. -/
theorem claim_C7 (items : List ClockingItemStx) :
    (ClockingBlockSymbol.fromSyntax items).inputSkew =
      (inputSkewsOf items).head? ∧
    (ClockingBlockSymbol.fromSyntax items).outputSkew =
      (outputSkewsOf items).head? ∧
    diagsWithCode DiagCode.MultipleDefaultInputSkew
        (ClockingBlockSymbol.fromSyntax items).diags =
      ((inputSkewsOf items).drop 1).map
        (fun s => ⟨DiagCode.MultipleDefaultInputSkew, s.firstTokenLoc, ""⟩) ∧
    diagsWithCode DiagCode.MultipleDefaultOutputSkew
        (ClockingBlockSymbol.fromSyntax items).diags =
      ((outputSkewsOf items).drop 1).map
        (fun s => ⟨DiagCode.MultipleDefaultOutputSkew, s.firstTokenLoc, ""⟩) ∧
    (ClockingBlockSymbol.fromSyntax items).members = memberItemsOf items := by
  refine ⟨?_, ?_, ?_, ?_, ?_⟩
  · rw [show ClockingBlockSymbol.fromSyntax items =
        clockingItemsLoop items ⟨none, none, [], []⟩ from rfl,
      clockingLoop_inputSkew]
    rfl
  · rw [show ClockingBlockSymbol.fromSyntax items =
        clockingItemsLoop items ⟨none, none, [], []⟩ from rfl,
      clockingLoop_outputSkew]
    rfl
  · rw [show ClockingBlockSymbol.fromSyntax items =
        clockingItemsLoop items ⟨none, none, [], []⟩ from rfl,
      clockingLoop_inDiags]
    simp [diagsWithCode, dupSkewTail]
  · rw [show ClockingBlockSymbol.fromSyntax items =
        clockingItemsLoop items ⟨none, none, [], []⟩ from rfl,
      clockingLoop_outDiags]
    simp [diagsWithCode, dupSkewTail]
  · rw [show ClockingBlockSymbol.fromSyntax items =
        clockingItemsLoop items ⟨none, none, [], []⟩ from rfl,
      clockingLoop_members]
    rfl

theorem buildAnsiPorts_logic (decls : List UdpPortDeclStx) :
    ∀ p ∈ buildAnsiPorts decls, p.typeM = TypeM.logic := by
  induction decls with
  | nil => intro p hp; exact absurd hp (List.not_mem_nil _)
  | cons d rest ih =>
    intro p hp
    rcases d with d | d
    · simp only [buildAnsiPorts] at hp
      rcases List.mem_cons.mp hp with rfl | hp
      · rfl
      · exact ih p hp
    · simp only [buildAnsiPorts] at hp
      rcases List.mem_append.mp hp with hp | hp
      · rcases List.mem_map.mp hp with ⟨t, ht, rfl⟩; rfl
      · exact ih p hp

theorem initNonAnsiPorts_logic (names : List TokenM) :
    ∀ p ∈ initNonAnsiPorts names, p.typeM = TypeM.logic := by
  intro p hp
  rcases List.mem_map.mp hp with ⟨t, ht, rfl⟩
  rfl

theorem processOutputDecl_logic (st : NonAnsiState) (d : UdpOutputPortDeclStx)
    (h : ∀ p ∈ st.ports, p.typeM = TypeM.logic) :
    ∀ p ∈ (processOutputDecl st d).ports, p.typeM = TypeM.logic := by
  intro p hp
  unfold processOutputDecl at hp
  split at hp
  case _ i hidx =>
    split at hp
    case _ => exact h p hp
    case _ p0 hget =>
      split at hp
      · exact h p hp
      · rcases List.mem_or_eq_of_mem_set hp with hp | rfl
        · exact h p hp
        · obtain ⟨hlt, hEq⟩ := List.getElem?_eq_some.mp hget
          have : p0 ∈ st.ports := hEq ▸ List.getElem_mem hlt
          exact h p0 this
  case _ => exact h p hp

theorem processInputName_logic (st : NonAnsiState) (t : TokenM)
    (h : ∀ p ∈ st.ports, p.typeM = TypeM.logic) :
    ∀ p ∈ (processInputName st t).ports, p.typeM = TypeM.logic := by
  intro p hp
  unfold processInputName at hp
  split at hp
  case _ i hidx =>
    split at hp
    case _ => exact h p hp
    case _ p0 hget =>
      rcases List.mem_or_eq_of_mem_set hp with hp | rfl
      · exact h p hp
      · obtain ⟨hlt, hEq⟩ := List.getElem?_eq_some.mp hget
        have : p0 ∈ st.ports := hEq ▸ List.getElem_mem hlt
        exact h p0 this
  case _ => exact h p hp

theorem foldl_processInputName_logic (names : List TokenM) :
    ∀ st : NonAnsiState,
    (∀ p ∈ st.ports, p.typeM = TypeM.logic) →
    ∀ p ∈ (names.foldl processInputName st).ports, p.typeM = TypeM.logic := by
  induction names with
  | nil => intro st h; exact h
  | cons t rest ih =>
    intro st h
    exact ih (processInputName st t) (processInputName_logic st t h)

theorem processPortDecl_logic (st : NonAnsiState) (pd : UdpPortDeclStx)
    (h : ∀ p ∈ st.ports, p.typeM = TypeM.logic) :
    ∀ p ∈ (processPortDecl st pd).ports, p.typeM = TypeM.logic := by
  rcases pd with d | d
  · exact processOutputDecl_logic st d h
  · exact foldl_processInputName_logic d.names st h

theorem foldl_processPortDecl_logic (decls : List UdpPortDeclStx) :
    ∀ st : NonAnsiState,
    (∀ p ∈ st.ports, p.typeM = TypeM.logic) →
    ∀ p ∈ (decls.foldl processPortDecl st).ports, p.typeM = TypeM.logic := by
  induction decls with
  | nil => intro st h; exact h
  | cons pd rest ih =>
    intro st h
    exact ih (processPortDecl st pd) (processPortDecl_logic st pd h)

theorem processRegSpecifier_logic (st : NonAnsiState)
    (h : ∀ p ∈ st.ports, p.typeM = TypeM.logic) :
    ∀ p ∈ (processRegSpecifier st).ports, p.typeM = TypeM.logic := by
  intro p hp
  unfold processRegSpecifier at hp
  split at hp
  case _ => exact h p hp
  case _ d =>
    split at hp
    case _ => exact h p hp
    case _ i hidx =>
      split at hp
      case _ => exact h p hp
      case _ p0 hget =>
        split at hp
        case _ =>
          split at hp
          · exact h p hp
          · split at hp
            · exact h p hp
            · rcases List.mem_or_eq_of_mem_set hp with hp | rfl
              · exact h p hp
              · obtain ⟨hlt, hEq⟩ := List.getElem?_eq_some.mp hget
                have : p0 ∈ st.ports := hEq ▸ List.getElem_mem hlt
                exact h p0 this
        case _ => exact h p hp

theorem buildUdpPorts_logic (decl : UdpDeclarationStx) :
    ∀ p ∈ (buildUdpPorts decl).1, p.typeM = TypeM.logic := by
  unfold buildUdpPorts
  rcases hpl : decl.portList with decls | names | _
  · intro p hp
    simp only at hp
    exact buildAnsiPorts_logic decls p hp
  · intro p hp
    simp only at hp
    refine processRegSpecifier_logic _ ?_ p hp
    exact foldl_processPortDecl_logic decl.body.portDecls _
      (initNonAnsiPorts_logic names)
  · intro p hp
    simp only at hp
    exact absurd hp (List.not_mem_nil _)

theorem primitiveTail_ports (decl : UdpDeclarationStx)
    (ports : List PrimitivePortSym) (ds : List Diag) :
    (primitiveTail decl ports ds).1.ports = ports := by
  rcases ports with _ | ⟨p0, ports1⟩
  · rfl
  rcases ports1 with _ | ⟨p1, rest⟩
  · rfl
  by_cases hdir : p0.direction = PrimitivePortDirection.In
  · simp [primitiveTail, hdir]
  · simp [primitiveTail, hdir]

theorem primitiveFromSyntax_ports (decl : UdpDeclarationStx) :
    (PrimitiveSymbol.fromSyntax decl).1.ports = (buildUdpPorts decl).1 := by
  unfold PrimitiveSymbol.fromSyntax
  rcases h : buildUdpPorts decl with ⟨ports, ds⟩
  exact primitiveTail_ports decl ports ds

/-- C9: every primitive port symbol gets the single-bit logic type at
construction, and every port of an elaborated UDP (ANSI, non-ANSI, or
wildcard form) has the logic type. -/
theorem claim_C9 :
    (∀ (name : String) (loc : Nat) (dir : PrimitivePortDirection),
      (PrimitivePortSymbol.mk name loc dir).typeM = TypeM.logic) ∧
    (∀ (decl : UdpDeclarationStx),
      ∀ p ∈ (PrimitiveSymbol.fromSyntax decl).1.ports, p.typeM = TypeM.logic) := by
  refine ⟨fun name loc dir => rfl, fun decl p hp => ?_⟩
  rw [primitiveFromSyntax_ports] at hp
  exact buildUdpPorts_logic decl p hp

theorem claim_C9_witness :
    (PrimitivePortSymbol.mk "w" 7 PrimitivePortDirection.OutReg).typeM =
      TypeM.logic ∧
    (PrimitivePortSymbol.mk "q" 1 PrimitivePortDirection.In).typeM =
      TypeM.logic :=
  ⟨claim_C9.1 "w" 7 PrimitivePortDirection.OutReg,
   claim_C9.2 c9Decl (PrimitivePortSymbol.mk "q" 1 PrimitivePortDirection.In)
     (by decide)⟩

/-- The stored/diagnosed dichotomy of a bound UDP initial value. -/
theorem primBindInitVal_eq (e : ExprStx) (hb : (bindExpr e).bad = false) :
    primBindInitVal e =
      (if goodInitCondB e then (bindExpr e).constant else none,
       if goodInitCondB e then []
       else [⟨DiagCode.PrimitiveInitVal, (bindExpr e).loc, ""⟩]) := by
  rcases e with ⟨unsized, bits, loc⟩ | ⟨c, bad, loc⟩
  · unfold primBindInitVal goodInitCondB bindExpr
    by_cases hw1 : bits.length = 1 <;> by_cases hw2 : unsized = true <;>
      by_cases hg : goodPrimInitVal ⟨bits⟩ = true <;>
        simp [hw1, hw2, hg]
  · simp only [bindExpr] at hb
    unfold primBindInitVal goodInitCondB bindExpr
    rcases c with _ | v <;> simp [hb]

/-- The shape of PrimitiveSymbol::fromSyntax when the port list has at least
two entries and the first is an output. -/
theorem primitiveFromSyntax_eq (decl : UdpDeclarationStx) (p0 p1 : PrimitivePortSym)
    (rest : List PrimitivePortSym) (ds : List Diag)
    (h : buildUdpPorts decl = (p0 :: p1 :: rest, ds))
    (hdir : ¬ p0.direction = PrimitivePortDirection.In) :
    PrimitiveSymbol.fromSyntax decl =
      (⟨decl.name.text, decl.name.loc,
        decide (p0.direction = PrimitivePortDirection.OutReg),
        (match (primInitialStmt (decide (p0.direction = PrimitivePortDirection.OutReg))
            p0 (primInlineInit p0) decl.body.initialStmt).1 with
         | some e => primBindInitVal e
         | none => ((none : Option SVIntM), ([] : List Diag))).1,
        p0 :: p1 :: rest⟩,
       ds ++
        (match (p1 :: rest).find? (fun p => p.direction ≠ PrimitivePortDirection.In) with
         | some p => [⟨DiagCode.PrimitiveDupOutput, p.loc, ""⟩]
         | none => []) ++
        (primInitialStmt (decide (p0.direction = PrimitivePortDirection.OutReg))
          p0 (primInlineInit p0) decl.body.initialStmt).2 ++
        (match (primInitialStmt (decide (p0.direction = PrimitivePortDirection.OutReg))
            p0 (primInlineInit p0) decl.body.initialStmt).1 with
         | some e => primBindInitVal e
         | none => ((none : Option SVIntM), ([] : List Diag))).2) := by
  unfold PrimitiveSymbol.fromSyntax
  rw [h]
  show primitiveTail decl (p0 :: p1 :: rest) ds = _
  simp only [primitiveTail]
  rw [if_neg hdir]

/-- C2 (amended): a UDP with at least two ports whose first port is
`output reg` is flagged sequential, and its chosen initial-value expression
(inline or from the initial statement) is stored as the init value exactly
when it is an integer literal of one-bit type or an unsized integer whose
constant value is 0, 1, or a one-bit x, a PrimitiveInitVal diagnostic being
issued otherwise; an initial statement on a combinational (non-sequential)
primitive is diagnosed with PrimitiveInitialInComb. -/
theorem claim_C2_amended (decl : UdpDeclarationStx) :
    (∀ p0 p1 rest,
      (PrimitiveSymbol.fromSyntax decl).1.ports = p0 :: p1 :: rest →
      p0.direction = PrimitivePortDirection.OutReg →
      (PrimitiveSymbol.fromSyntax decl).1.isSequential = true ∧
      (∀ e, primChosenInit decl = some e → (bindExpr e).bad = false →
        ((PrimitiveSymbol.fromSyntax decl).1.initVal =
          if goodInitCondB e then (bindExpr e).constant else none) ∧
        (goodInitCondB e = false →
          (⟨DiagCode.PrimitiveInitVal, (bindExpr e).loc, ""⟩ : Diag) ∈
            (PrimitiveSymbol.fromSyntax decl).2))) ∧
    (∀ p0 p1 rest,
      (PrimitiveSymbol.fromSyntax decl).1.ports = p0 :: p1 :: rest →
      p0.direction = PrimitivePortDirection.Out →
      ∀ ini, decl.body.initialStmt = some ini →
      (PrimitiveSymbol.fromSyntax decl).1.isSequential = false ∧
      (⟨DiagCode.PrimitiveInitialInComb, ini.loc, ""⟩ : Diag) ∈
        (PrimitiveSymbol.fromSyntax decl).2) := by
  constructor
  · intro p0 p1 rest hports hdir
    rw [primitiveFromSyntax_ports] at hports
    have hb2 : buildUdpPorts decl = (p0 :: p1 :: rest, (buildUdpPorts decl).2) := by
      rw [← hports]
    have hne : ¬ p0.direction = PrimitivePortDirection.In := by rw [hdir]; decide
    have heq := primitiveFromSyntax_eq decl p0 p1 rest _ hb2 hne
    have hchosen : primChosenInit decl =
        (primInitialStmt (decide (p0.direction = PrimitivePortDirection.OutReg)) p0
          (primInlineInit p0) decl.body.initialStmt).1 := by
      unfold primChosenInit
      rw [hports]
      simp only [primChosenInitAux]
      rw [if_neg hne]
    have hdec : (decide (PrimitivePortDirection.OutReg = PrimitivePortDirection.OutReg))
        = true := rfl
    rw [hdir, hdec] at heq
    rw [hdir, hdec] at hchosen
    rcases hE : primInitialStmt true p0 (primInlineInit p0) decl.body.initialStmt
      with ⟨initExpr, iniDiags⟩
    rw [hE] at heq hchosen
    simp only at heq hchosen
    refine ⟨by rw [heq], ?_⟩
    intro e he hbad
    rw [hchosen] at he
    subst he
    simp only at heq
    rw [primBindInitVal_eq e hbad] at heq
    simp only at heq
    constructor
    · rw [heq]
    · intro hgood
      rw [heq]
      simp [hgood]
  · intro p0 p1 rest hports hdir ini hini
    rw [primitiveFromSyntax_ports] at hports
    have hb2 : buildUdpPorts decl = (p0 :: p1 :: rest, (buildUdpPorts decl).2) := by
      rw [← hports]
    have hne : ¬ p0.direction = PrimitivePortDirection.In := by rw [hdir]; decide
    have heq := primitiveFromSyntax_eq decl p0 p1 rest _ hb2 hne
    have hdec : (decide (PrimitivePortDirection.Out = PrimitivePortDirection.OutReg))
        = false := rfl
    rw [hdir, hdec] at heq
    have hinl : primInlineInit p0 = none := by
      unfold primInlineInit
      rw [if_neg (by rw [hdir]; decide)]
    rw [hinl, hini] at heq
    have hstmt : primInitialStmt false p0 none (some ini) =
        (none, [⟨DiagCode.PrimitiveInitialInComb, ini.loc, ""⟩]) := rfl
    rw [hstmt] at heq
    simp only at heq
    refine ⟨by rw [heq], ?_⟩
    rw [heq]
    simp

/-- C2 counterexample to the claim as stated: the inline initializer `2'd0`
of c2CexDecl constant-evaluates to 0, yet the code does not store it as the
init value and issues PrimitiveInitVal instead (the expression is a two-bit
literal, neither one bit wide nor unsized). -/
theorem claim_C2_counterexample :
    primChosenInit c2CexDecl = some c2CexInit ∧
    (bindExpr c2CexInit).constant.map (fun v => v.eqNat 0) = some true ∧
    (PrimitiveSymbol.fromSyntax c2CexDecl).1.isSequential = true ∧
    (PrimitiveSymbol.fromSyntax c2CexDecl).1.initVal = none ∧
    (⟨DiagCode.PrimitiveInitVal, 4, ""⟩ : Diag) ∈
      (PrimitiveSymbol.fromSyntax c2CexDecl).2 := by
  decide

theorem claim_C2_witness :
    ((PrimitiveSymbol.fromSyntax seed5Decl).1.isSequential = true ∧
     (PrimitiveSymbol.fromSyntax seed5Decl).1.initVal =
       (if goodInitCondB (ExprStx.intLit false [L4.x] 7)
        then (bindExpr (ExprStx.intLit false [L4.x] 7)).constant else none)) ∧
    ((PrimitiveSymbol.fromSyntax c2CombDecl).1.isSequential = false ∧
     (⟨DiagCode.PrimitiveInitialInComb, 5, ""⟩ : Diag) ∈
       (PrimitiveSymbol.fromSyntax c2CombDecl).2) :=
  have h1 := (claim_C2_amended seed5Decl).1
    ⟨"q", 3, PrimitivePortDirection.OutReg, TypeM.logic,
      some (UdpPortSynRef.outputDecl ⟨⟨"q", 3⟩, true, 4, true, none⟩)⟩
    ⟨"a", 5, PrimitivePortDirection.In, TypeM.logic,
      some (UdpPortSynRef.identName ⟨"a", 5⟩)⟩
    [] (by decide) rfl
  have h2 := (claim_C2_amended c2CombDecl).2
    ⟨"q", 1, PrimitivePortDirection.Out, TypeM.logic,
      some (UdpPortSynRef.outputDecl ⟨⟨"q", 1⟩, false, 0, true, none⟩)⟩
    ⟨"a", 2, PrimitivePortDirection.In, TypeM.logic,
      some (UdpPortSynRef.identName ⟨"a", 2⟩)⟩
    [] (by decide) rfl ⟨⟨"q", 3⟩, ExprStx.intLit false [L4.zero] 4, 5⟩ rfl
  ⟨⟨h1.1, (h1.2 (ExprStx.intLit false [L4.x] 7) (by decide) rfl).1⟩,
   ⟨h2.1, h2.2⟩⟩
